import Mathlib

/-!
# orchestra-mcp/socket: hub, pub/sub and relay ingress

A shallow embedding of `src/hub` (hub.go, pubsub.go, client.go, queries.go),
`src/types/types.go`, `src/service/service.go` and the relay ingress of
`src/bridge/redis.go`.

Modelling conventions

* A Go `map[string]T` is a function `String → Option T`; `none` is an absent
  key.  A Go set `map[string]bool` (only ever written with `true`) is a
  `Finset String`.
* `*Client` values are addresses (`Nat`) into a heap of `Client` records, so
  that two distinct client objects may carry the same `ID` and a client
  object keeps its own fields after the hub has dropped it.
* A buffered Go channel is the list of messages it currently holds, oldest
  first, together with its capacity; `closed` records `close(c.Send)`.
* A send on a closed channel panics; functions that may panic return
  `Except World _`, where `.error s` carries the state at the panic.
* Calls that leave the hub (connection callbacks, channel handlers, the
  bridge) are opaque Go closures; each call is recorded in `World.trace`.
* Readings of `time.Now()` and the frames returned by `ReadJSON` are
  arguments; `json.Unmarshal` is an argument of the relay ingress.
* The JSON object of a `types.Message` has the keys of its struct tags, each
  present or absent; a finite `float64` is the rational number it denotes
  and a `time.Time` the instant it denotes.
* Goroutines running side by side (the loop, its fan-out, the write pumps,
  callers of `Subscribe` and `Unsubscribe`) are a sequence of steps of a
  `Net`, one goroutine moving at a time.
-/

namespace Socket

/-! ## types/types.go -/

/-- A Go `any` value: nil, a bool, a finite `float64` (`number`, as the
rational number it denotes), an `int`, a string, a slice `[]any`, a map
`map[string]any` (`object`, its entries in some order) or a map
`map[string]string` (`strMap`).  The hub, the clients and the relay ingress pass `Message.Data`
along without looking inside it; the service facade tests a value for being
a `map[string]any`; `encoding/json` decodes every number to a `float64` and
every object to a `map[string]any`. -/
inductive Any where
  | null
  | bool (b : Bool)
  | number (x : Rat)
  | int (n : Int)
  | str (s : String)
  | array (items : List Any)
  | object (fields : List (String × Any))
  | strMap (fields : List (String × String))

mutual
/-- Decides equality of two `Any` values. -/
def Any.decEq : (a b : Any) → Decidable (a = b)
  | .null, .null => isTrue rfl
  | .bool a, .bool b =>
    if h : a = b then isTrue (by rw [h]) else isFalse (by intro e; cases e; exact h rfl)
  | .number a, .number b =>
    if h : a = b then isTrue (by rw [h]) else isFalse (by intro e; cases e; exact h rfl)
  | .int a, .int b =>
    if h : a = b then isTrue (by rw [h]) else isFalse (by intro e; cases e; exact h rfl)
  | .str a, .str b =>
    if h : a = b then isTrue (by rw [h]) else isFalse (by intro e; cases e; exact h rfl)
  | .strMap a, .strMap b =>
    if h : a = b then isTrue (by rw [h]) else isFalse (by intro e; cases e; exact h rfl)
  | .array a, .array b =>
    match Any.decEqItems a b with
    | isTrue h => isTrue (by rw [h])
    | isFalse h => isFalse (by intro e; cases e; exact h rfl)
  | .object a, .object b =>
    match Any.decEqFields a b with
    | isTrue h => isTrue (by rw [h])
    | isFalse h => isFalse (by intro e; cases e; exact h rfl)
  | .null, .bool _ | .null, .number _ | .null, .int _ | .null, .str _
  | .null, .array _ | .null, .object _ | .null, .strMap _ => isFalse (by intro e; cases e)
  | .bool _, .null | .bool _, .number _ | .bool _, .int _ | .bool _, .str _
  | .bool _, .array _ | .bool _, .object _ | .bool _, .strMap _ => isFalse (by intro e; cases e)
  | .number _, .null | .number _, .bool _ | .number _, .int _ | .number _, .str _
  | .number _, .array _ | .number _, .object _ | .number _, .strMap _ => isFalse (by intro e; cases e)
  | .int _, .null | .int _, .bool _ | .int _, .number _ | .int _, .str _
  | .int _, .array _ | .int _, .object _ | .int _, .strMap _ => isFalse (by intro e; cases e)
  | .str _, .null | .str _, .bool _ | .str _, .number _ | .str _, .int _
  | .str _, .array _ | .str _, .object _ | .str _, .strMap _ => isFalse (by intro e; cases e)
  | .array _, .null | .array _, .bool _ | .array _, .number _ | .array _, .int _
  | .array _, .str _ | .array _, .object _ | .array _, .strMap _ => isFalse (by intro e; cases e)
  | .object _, .null | .object _, .bool _ | .object _, .number _ | .object _, .int _
  | .object _, .str _ | .object _, .array _ | .object _, .strMap _ => isFalse (by intro e; cases e)
  | .strMap _, .null | .strMap _, .bool _ | .strMap _, .number _ | .strMap _, .int _
  | .strMap _, .str _ | .strMap _, .array _ | .strMap _, .object _ => isFalse (by intro e; cases e)
/-- Decides equality of two slices of `Any` values. -/
def Any.decEqItems : (a b : List Any) → Decidable (a = b)
  | [], [] => isTrue rfl
  | [], _ :: _ => isFalse (by intro e; cases e)
  | _ :: _, [] => isFalse (by intro e; cases e)
  | v :: r, v2 :: r2 =>
    match Any.decEq v v2 with
    | isTrue hv =>
      match Any.decEqItems r r2 with
      | isTrue hr => isTrue (by rw [hv, hr])
      | isFalse hr => isFalse (by intro e; cases e; exact hr rfl)
    | isFalse hv => isFalse (by intro e; cases e; exact hv rfl)
/-- Decides equality of two entry lists. -/
def Any.decEqFields : (a b : List (String × Any)) → Decidable (a = b)
  | [], [] => isTrue rfl
  | [], _ :: _ => isFalse (by intro e; cases e)
  | _ :: _, [] => isFalse (by intro e; cases e)
  | (k, v) :: r, (k2, v2) :: r2 =>
    if hk : k = k2 then
      match Any.decEq v v2 with
      | isTrue hv =>
        match Any.decEqFields r r2 with
        | isTrue hr => isTrue (by rw [hk, hv, hr])
        | isFalse hr => isFalse (by intro e; cases e; exact hr rfl)
      | isFalse hv => isFalse (by intro e; cases e; exact hv rfl)
    else isFalse (by intro e; cases e; exact hk rfl)
end

instance instDecidableEqAny : DecidableEq Any := Any.decEq

/-- The struct `types.Message`. -/
structure Message where
  Channel : String
  Event : String
  Data : List (String × Any)
  ClientID : String
  Timestamp : Int
  deriving DecidableEq

/-- The zero value of `types.Message`. -/
def Message.zero : Message :=
  { Channel := "", Event := "", Data := [], ClientID := "", Timestamp := 0 }

/-! ## hub/client.go -/

/-- Capacity of `Client.Send`: `make(chan types.Message, 256)`. -/
def sendCap : Nat := 256

/-- The struct `hub.Client` (fields the hub reads or writes). -/
structure Client where
  ID : String
  Send : List Message
  channels : Finset String
  closed : Bool
  deriving DecidableEq

/-- Embeds `NewClient(id, conn, h)`. -/
def NewClient (id : String) : Client :=
  { ID := id, Send := [], channels := ∅, closed := false }

/-- Embeds `(*Client).AddChannel`. -/
def Client.AddChannel (c : Client) (channel : String) : Client :=
  { c with channels := insert channel c.channels }

/-- Embeds `(*Client).RemoveChannel`. -/
def Client.RemoveChannel (c : Client) (channel : String) : Client :=
  { c with channels := c.channels.erase channel }

/-- Embeds `(*Client).Close`: sets `closed` and closes `done` and `Send`, once. -/
def Client.Close (c : Client) : Client :=
  if !c.closed then { c with closed := true } else c

/-- The client with `msg` placed at the tail of its `Send` buffer. -/
def Client.enqueue (c : Client) (msg : Message) : Client :=
  { c with Send := c.Send ++ [msg] }

/-- The client with the oldest message of its `Send` buffer received. -/
def Client.dequeue (c : Client) : Client :=
  { c with Send := c.Send.tail }

/-- The non-blocking send `select { case c.Send <- msg: ... default: ... }`.
`none`: the channel is closed and the send panics; `some (true, c1)`: the
message was enqueued at the tail; `some (false, c)`: the buffer is full and
the `default` branch ran. -/
def Client.trySend (c : Client) (msg : Message) : Option (Bool × Client) :=
  if c.closed then none
  else if c.Send.length < sendCap then some (true, c.enqueue msg)
  else some (false, c)

/-! ## hub/hub.go -/

/-- The interface `hub.MessageBridge` as the hub observes it: the answer of
`Available()` and, for each message, the error of `Publish` if any. -/
structure MessageBridge where
  Available : Bool
  Publish : Message → Option String

/-- The type `types.MessageHandler`: the error returned, if any. -/
abbrev MessageHandler : Type := String → Message → Option String

/-- Levels of the zerolog calls made by the hub. -/
inductive Level where
  | debug | info | warn | error
  deriving DecidableEq

/-- Calls that leave the hub, in the order they are made. -/
inductive Effect where
  /-- A callback of `onConnect`, by position, called with a client id. -/
  | onConnect (cb : Nat) (id : String)
  /-- A callback of `onDisconn`, by position, called with a client id. -/
  | onDisconn (cb : Nat) (id : String)
  /-- The handler of a channel called as `handler(clientID, msg)`. -/
  | handler (channel : String) (clientID : String) (msg : Message)
  /-- A call `b.Publish(msg)` on the attached bridge. -/
  | bridgePublish (msg : Message)
  /-- A log line: level, message and the value of its string field. -/
  | log (level : Level) (text : String) (field : String)
  deriving DecidableEq

/-- The struct `hub.broadcastMsg`. -/
structure broadcastMsg where
  channel : String
  msg : Message
  deriving DecidableEq

/-- The maps and lists of the struct `hub.Hub`; `onConnect` and `onDisconn`
hold the number of registered callbacks, `done` whether the channel `done`
has been closed. -/
structure Hub where
  clients : String → Option Nat
  channels : String → Option (Finset String)
  handlers : String → Option MessageHandler
  onConnect : Nat
  onDisconn : Nat
  bridge : Option MessageBridge
  done : Bool := false

/-- The hub together with the client objects it points to and the calls it
has made so far. -/
structure World where
  heap : Nat → Client
  hub : Hub
  trace : List Effect

/-- Embeds `hub.New`. -/
def New : Hub :=
  { clients := fun _ => none, channels := fun _ => none, handlers := fun _ => none,
    onConnect := 0, onDisconn := 0, bridge := none }

/-- A fresh hub next to client objects made by `NewClient`; the object at
address `p` was made with id `ids p`. -/
def World.fresh (ids : Nat → String) : World :=
  { heap := fun p => NewClient (ids p), hub := New, trace := [] }

/-- Appends calls to the trace. -/
def World.emit (s : World) (es : List Effect) : World :=
  { s with trace := s.trace ++ es }

/-- Embeds `(*Hub).SetBridge`. -/
def SetBridge (b : Option MessageBridge) (s : World) : World :=
  { s with hub := { s.hub with bridge := b } }

/-- Embeds `(*Hub).Stop`: `close(h.done)`.  Closing a channel that is already
closed panics. -/
def Stop (s : World) : Except World World :=
  if s.hub.done then Except.error s
  else Except.ok { s with hub := { s.hub with done := true } }

/-- Embeds `(*Hub).addClient`. -/
def addClient (c : Nat) (s : World) : World :=
  let id := (s.heap c).ID
  let s1 : World := { s with hub := { s.hub with clients := Function.update s.hub.clients id (some c) } }
  s1.emit (Effect.log Level.info "client registered" id ::
    (List.range s.hub.onConnect).map fun cb => Effect.onConnect cb id)

/-- The body of the loop `for ch, subs := range h.channels` in `removeClient`,
for one key: delete the id from the set and drop the key if the set is
empty. -/
def dropSubscriber (id : String) (entry : Option (Finset String)) : Option (Finset String) :=
  match entry with
  | none => none
  | some subs =>
    let subs1 := subs.erase id
    if subs1.card = 0 then none else some subs1

/-- Embeds `(*Hub).removeClient`. -/
def removeClient (c : Nat) (s : World) : World :=
  let id := (s.heap c).ID
  match s.hub.clients id with
  | none => s
  | some _ =>
    let s1 : World :=
      { s with
        heap := Function.update s.heap c (s.heap c).Close
        hub := { s.hub with
          clients := Function.update s.hub.clients id none
          channels := fun ch => dropSubscriber id (s.hub.channels ch) } }
    s1.emit (Effect.log Level.info "client unregistered" id ::
      (List.range s.hub.onDisconn).map fun cb => Effect.onDisconn cb id)

/-! ## hub/pubsub.go -/

/-- Embeds `(*Hub).handleMessage`. -/
def handleMessage (msg : Message) (s : World) : World :=
  match s.hub.handlers msg.Channel with
  | none => s.emit [Effect.log Level.debug "no handler" msg.Channel]
  | some handler =>
    match handler msg.ClientID msg with
    | some _ =>
      s.emit [Effect.handler msg.Channel msg.ClientID msg,
        Effect.log Level.error "handler error" msg.Channel]
    | none => s.emit [Effect.handler msg.Channel msg.ClientID msg]

/-- The second loop of `broadcastToChannel`: for each id, look the client up,
skip it if it is gone, otherwise try a non-blocking send. -/
def fanOut (msg : Message) : List String → World → Except World World
  | [], s => Except.ok s
  | id :: ids, s =>
    match s.hub.clients id with
    | none => fanOut msg ids s
    | some c =>
      match (s.heap c).trySend msg with
      | none => Except.error s
      | some (true, c1) => fanOut msg ids { s with heap := Function.update s.heap c c1 }
      | some (false, _) =>
        fanOut msg ids (s.emit [Effect.log Level.warn "send buffer full, dropping" id])

/-- Embeds `(*Hub).broadcastToChannel`.  `order subs` is the order in which
`for id := range subs` yields the keys of `subs`; Go leaves it unspecified. -/
def broadcastToChannel (order : Finset String → List String) (channel : String)
    (msg : Message) (s : World) : Except World World :=
  match s.hub.channels channel with
  | none => Except.ok s
  | some subs => fanOut msg (order subs) s

/-- Embeds `(*Hub).publishToBridge`. -/
def publishToBridge (msg : Message) (s : World) : World :=
  match s.hub.bridge with
  | none => s
  | some b =>
    if !b.Available then s
    else
      match b.Publish msg with
      | some _ =>
        s.emit [Effect.bridgePublish msg, Effect.log Level.error "bridge publish failed" ""]
      | none => s.emit [Effect.bridgePublish msg]

/-- Embeds `(*Hub).Subscribe`. -/
def Subscribe (channel clientID : String) (s : World) : Bool × World :=
  match s.hub.clients clientID with
  | none => (false, s)
  | some c =>
    let subs : Finset String :=
      match s.hub.channels channel with
      | none => ∅
      | some subs => subs
    (true,
      { s with
        heap := Function.update s.heap c ((s.heap c).AddChannel channel)
        hub := { s.hub with
          channels := Function.update s.hub.channels channel (some (insert clientID subs)) } })

/-- Embeds `(*Hub).Unsubscribe`. -/
def Unsubscribe (channel clientID : String) (s : World) : Bool × World :=
  match s.hub.channels channel with
  | none => (false, s)
  | some subs =>
    let subs1 := subs.erase clientID
    let channels1 :=
      if subs1.card = 0 then Function.update s.hub.channels channel none
      else Function.update s.hub.channels channel (some subs1)
    let heap1 :=
      match s.hub.clients clientID with
      | some c => Function.update s.heap c ((s.heap c).RemoveChannel channel)
      | none => s.heap
    (true, { s with heap := heap1, hub := { s.hub with channels := channels1 } })

/-- Embeds `(*Hub).SendToClient`. -/
def SendToClient (clientID : String) (msg : Message) (s : World) : Except World (Bool × World) :=
  match s.hub.clients clientID with
  | none => Except.ok (false, s)
  | some c =>
    match (s.heap c).trySend msg with
    | none => Except.error s
    | some (true, c1) => Except.ok (true, { s with heap := Function.update s.heap c c1 })
    | some (false, _) => Except.ok (false, s)

/-- Embeds `(*Hub).SendToClient` with the other goroutines let in.
`SendToClient` releases the read lock once the lookup has returned a client
and sends afterwards; `between` is what the other goroutines (the loop, the
write pumps, other callers) do to the state in the meantime. -/
def SendToClientAfter (between : World → World) (clientID : String) (msg : Message)
    (s : World) : Except World (Bool × World) :=
  match s.hub.clients clientID with
  | none => Except.ok (false, s)
  | some c =>
    match ((between s).heap c).trySend msg with
    | none => Except.error (between s)
    | some (true, c1) =>
      Except.ok (true, { between s with heap := Function.update (between s).heap c c1 })
    | some (false, _) => Except.ok (false, between s)

/-- What a call of `SendToClient` gave back: `none` when it panicked. -/
def returned : Except World (Bool × World) → Option Bool
  | Except.ok r => some r.1
  | Except.error _ => none

/-! ## hub/queries.go -/

/-- Embeds `(*Hub).RegisterHandler`. -/
def RegisterHandler (channel : String) (handler : MessageHandler) (s : World) : World :=
  { s with hub := { s.hub with handlers := Function.update s.hub.handlers channel (some handler) } }

/-- Embeds `(*Hub).Channels`: subscriber count per channel key. -/
def Channels (s : World) : String → Option Nat :=
  fun ch => (s.hub.channels ch).map Finset.card

/-- The value read by the Go expression `h.channels[ch]`, a nil map being the
empty set. -/
def subscribers (s : World) (ch : String) : Finset String :=
  match s.hub.channels ch with
  | none => ∅
  | some subs => subs

/-! ## The event loop of hub.go -/

/-- What `Run` can receive in one iteration of its `select`. -/
inductive Event where
  | register (c : Nat)
  | unregister (c : Nat)
  | incoming (msg : Message)
  | broadcast (bm : broadcastMsg)
  | localCast (bm : broadcastMsg)
  | done

/-- Embeds `(*Hub).Publish`: the value placed on the `broadcast` queue. -/
def Publish (channel : String) (msg : Message) : Event :=
  Event.broadcast { channel := channel, msg := msg }

/-- Embeds `(*Hub).BroadcastToLocal`: the value placed on the `localCast` queue. -/
def BroadcastToLocal (msg : Message) : Event :=
  Event.localCast { channel := msg.Channel, msg := msg }

/-- One iteration of the `select` in `Run`, for the received event. -/
def handleEvent (order : Finset String → List String) (e : Event) (s : World) :
    Except World World :=
  match e with
  | Event.register c => Except.ok (addClient c s)
  | Event.unregister c => Except.ok (removeClient c s)
  | Event.incoming msg => Except.ok (handleMessage msg s)
  | Event.broadcast bm => broadcastToChannel order bm.channel bm.msg (publishToBridge bm.msg s)
  | Event.localCast bm => broadcastToChannel order bm.channel bm.msg s
  | Event.done => Except.ok s

/-- The state carried by an outcome, whether the loop body finished or
panicked. -/
def finalState : Except World World → World
  | Except.ok s => s
  | Except.error s => s

/-- The messages passed to the bridge so far. -/
def bridgePublishes (s : World) : List Message :=
  s.trace.filterMap fun e =>
    match e with
    | Effect.bridgePublish m => some m
    | _ => none

/-- The handler calls made so far: channel, client id and message. -/
def handlerCalls (s : World) : List (String × String × Message) :=
  s.trace.filterMap fun e =>
    match e with
    | Effect.handler ch id m => some (ch, id, m)
    | _ => none

/-! ## The read pump of client.go -/

/-- A received frame: the JSON object of the wire format, each field present
or absent. -/
structure Frame where
  channel : Option String
  event : Option String
  data : Option (List (String × Any))
  client_id : Option String
  timestamp : Option Int
  deriving DecidableEq

/-- What `c.conn.ReadJSON(&msg)` leaves in `msg`, declared by
`var msg types.Message` and so holding Go's zero value: a field carried by
the frame is stored, a field the frame omits keeps its zero value.  Neither
`types.Message` nor the `Conn` implementations of the repository
(`fasthttpConn`, `mockConn`) supply any other default. -/
def Frame.ReadJSON (f : Frame) : Message :=
  { Channel := f.channel.getD ""
    Event := f.event.getD ""
    Data := f.data.getD []
    ClientID := f.client_id.getD ""
    Timestamp := f.timestamp.getD 0 }

/-- The two assignments `msg.ClientID = c.ID` and `msg.Timestamp = time.Now()`
of `ReadPump`. -/
def Message.stamp (msg : Message) (id : String) (now : Int) : Message :=
  { msg with ClientID := id, Timestamp := now }

/-- Embeds `(*Client).ReadPump` for the client at address `c` with id `id`:
`reads` are the frames that `ReadJSON` returned before its first error, each
with the reading of `time.Now()` taken after it.  The result is what the pump
sends to the hub, in order: every message on `incoming`, then the client on
`unregister`. -/
def ReadPump (c : Nat) (id : String) (reads : List (Int × Frame)) : List Event :=
  reads.map (fun r => Event.incoming (r.2.ReadJSON.stamp id r.1)) ++ [Event.unregister c]

/-! ## service/service.go -/

/-- Embeds `(*Service).Publish` with `now` the reading of `time.Now()`: the
value placed on the hub's `broadcast` queue and the returned error. -/
def Service.Publish (now : Int) (channel : String) (data : Any) : Event × Option String :=
  let dataMap : List (String × Any) :=
    match data with
    | Any.object m => m
    | other => [("value", other)]
  let msg : Message :=
    { Channel := channel, Event := "message", Data := dataMap, ClientID := "", Timestamp := now }
  (Socket.Publish channel msg, none)

/-- Embeds `(*Service).SendToClient` with `now` the reading of `time.Now()`:
the returned error and the state after the call. -/
def Service.SendToClient (now : Int) (clientID channel : String) (data : Any) (s : World) :
    Except World (Option String × World) :=
  let dataMap : List (String × Any) :=
    match data with
    | Any.object m => m
    | other => [("value", other)]
  let msg : Message :=
    { Channel := channel, Event := "message", Data := dataMap, ClientID := "", Timestamp := now }
  match Socket.SendToClient clientID msg s with
  | Except.error s1 => Except.error s1
  | Except.ok (true, s1) => Except.ok (none, s1)
  | Except.ok (false, s1) =>
    Except.ok (some ("client " ++ clientID ++ " not found or buffer full"), s1)

/-- Whether an iteration of the loop finished without a panic. -/
def completed : Except World World → Bool
  | Except.ok _ => true
  | Except.error _ => false

/-- State of the goroutine that runs `Run`. -/
inductive LoopStatus where
  | running
  | returned
  | panicked
  deriving DecidableEq

/-- One turn of the `for { select ... }` of `Run` in which the case of event
`e` is taken.  The case `<-h.done` is ready only once `done` is closed, and it
is the one `return`; a panic ends the goroutine. -/
def loopStep (order : Finset String → List String) (e : Event) (st : LoopStatus × World) :
    LoopStatus × World :=
  match st.1 with
  | LoopStatus.running =>
    match e with
    | Event.done => if st.2.hub.done then (LoopStatus.returned, st.2) else st
    | _ =>
      match handleEvent order e st.2 with
      | Except.ok s1 => (LoopStatus.running, s1)
      | Except.error s1 => (LoopStatus.panicked, s1)
  | _ => st

/-- Embeds `(*Hub).Run` started in state `s`, for the sequence of cases its
`select` takes: the status of the goroutine and the state after them. -/
def Run (order : Finset String → List String) (events : List Event) (s : World) :
    LoopStatus × World :=
  events.foldl (fun st e => loopStep order e st) (LoopStatus.running, s)

/-! ## The JSON encoding of messages and envelopes -/

/-- A JSON value. -/
inductive JSON where
  | null
  | bool (b : Bool)
  | number (x : Rat)
  | string (s : String)
  | array (items : List JSON)
  | object (fields : List (String × JSON))

mutual
/-- The JSON value `json.Marshal` writes for a Go value: an `int` and a
`float64` both become a number, a `map[string]string` and a
`map[string]any` both become an object. -/
def Any.toJSON : Any → JSON
  | .null => JSON.null
  | .bool b => JSON.bool b
  | .number n => JSON.number n
  | .int n => JSON.number (Rat.ofInt n)
  | .str t => JSON.string t
  | .array items => JSON.array (Any.toJSONItems items)
  | .object fields => JSON.object (Any.toJSONFields fields)
  | .strMap fields => JSON.object (fields.map fun kv => (kv.1, JSON.string kv.2))
/-- The elements of a slice, each as JSON. -/
def Any.toJSONItems : List Any → List JSON
  | [] => []
  | v :: rest => Any.toJSON v :: Any.toJSONItems rest
/-- The entries of a map, each value as JSON. -/
def Any.toJSONFields : List (String × Any) → List (String × JSON)
  | [] => []
  | (k, v) :: rest => (k, Any.toJSON v) :: Any.toJSONFields rest
end

mutual
/-- The Go value `json.Unmarshal` stores into an `any`: a number becomes a
`float64`, an array a `[]any`, an object a `map[string]any`. -/
def JSON.toAny : JSON → Any
  | .null => Any.null
  | .bool b => Any.bool b
  | .number n => Any.number n
  | .string t => Any.str t
  | .array items => Any.array (JSON.toAnyItems items)
  | .object fields => Any.object (JSON.toAnyFields fields)
/-- The elements of an array, each decoded. -/
def JSON.toAnyItems : List JSON → List Any
  | [] => []
  | v :: rest => JSON.toAny v :: JSON.toAnyItems rest
/-- The entries of an object, each value decoded. -/
def JSON.toAnyFields : List (String × JSON) → List (String × Any)
  | [] => []
  | (k, v) :: rest => (k, JSON.toAny v) :: JSON.toAnyFields rest
end

mutual
/-- The value is of the types `json.Unmarshal` stores into an `any`: nil,
bool, finite `float64`, string, `[]any`, `map[string]any`, all the way
down. -/
def Any.native : Any → Bool
  | .null => true
  | .bool _ => true
  | .number _ => true
  | .int _ => false
  | .str _ => true
  | .array items => Any.nativeItems items
  | .object fields => Any.nativeFields fields
  | .strMap _ => false
/-- Every element of the slice is native. -/
def Any.nativeItems : List Any → Bool
  | [] => true
  | v :: rest => Any.native v && Any.nativeItems rest
/-- Every value of the map is native. -/
def Any.nativeFields : List (String × Any) → Bool
  | [] => true
  | (_, v) :: rest => Any.native v && Any.nativeFields rest
end

/-- The JSON object of a `types.Message`, each key present or absent. -/
structure MessageJSON where
  channel : Option String
  event : Option String
  data : Option (List (String × JSON))
  client_id : Option String
  timestamp : Option Int

/-- The object `json.Marshal` writes for a `types.Message`, by the struct
tags of types.go: `channel`, `event` and `timestamp` always, `data` unless
the map is empty (`omitempty`), `client_id` unless the string is empty
(`omitempty`).  The timestamp is carried as the instant it denotes. -/
def Message.Marshal (m : Message) : MessageJSON :=
  { channel := some m.Channel
    event := some m.Event
    data := if m.Data.isEmpty then none else some (Any.toJSONFields m.Data)
    client_id := if m.ClientID = "" then none else some m.ClientID
    timestamp := some m.Timestamp }

/-- The received frame of a JSON object, its data values decoded. -/
def MessageJSON.toFrame (w : MessageJSON) : Frame :=
  { channel := w.channel
    event := w.event
    data := w.data.map JSON.toAnyFields
    client_id := w.client_id
    timestamp := w.timestamp }

/-- The message `json.Unmarshal` leaves in a zero `types.Message`. -/
def MessageJSON.Unmarshal (w : MessageJSON) : Message :=
  w.toFrame.ReadJSON

/-- The JSON object of a `redisEnvelope`, each key present or absent. -/
structure EnvelopeJSON where
  instance_id : Option String
  message : Option MessageJSON

/-! ## Operation sequences -/

/-- The four registry operations, as handled by the hub. -/
inductive Op where
  | register (c : Nat)
  | unregister (c : Nat)
  | subscribe (channel clientID : String)
  | unsubscribe (channel clientID : String)
  deriving DecidableEq

/-- The state after one operation. -/
def Op.apply (op : Op) (s : World) : World :=
  match op with
  | Op.register c => addClient c s
  | Op.unregister c => removeClient c s
  | Op.subscribe channel clientID => (Subscribe channel clientID s).2
  | Op.unsubscribe channel clientID => (Unsubscribe channel clientID s).2

/-- The state after a sequence of operations, first to last. -/
def run : List Op → World → World
  | [], s => s
  | op :: ops, s => run ops (op.apply s)

/-- Every `register` of the sequence meets `ok` in the state it is applied
to. -/
def registersOK (ok : World → Nat → Bool) : List Op → World → Bool
  | [], _ => true
  | Op.register c :: ops, s => ok s c && registersOK ok ops (addClient c s)
  | op :: ops, s => registersOK ok ops (op.apply s)

/-- The client is registered under no id yet and has no subscription. -/
def unregisteredAndUnsubscribed (s : World) (c : Nat) : Bool :=
  (s.hub.clients (s.heap c).ID).isNone && decide ((s.heap c).channels = ∅)

/-- The client has not been closed. -/
def notClosed (s : World) (c : Nat) : Bool :=
  !(s.heap c).closed

/-! ## Calls on the public interface of the hub -/

/-- A call of a public operation of the hub.  `register`, `unregister`,
`publish`, `broadcastToLocal` and `incoming` stand for the call together with
the loop handling the queued event. -/
inductive Call where
  | register (c : Nat)
  | unregister (c : Nat)
  | subscribe (channel clientID : String)
  | unsubscribe (channel clientID : String)
  | publish (channel : String) (msg : Message)
  | broadcastToLocal (msg : Message)
  | sendToClient (clientID : String) (msg : Message)
  | registerHandler (channel : String) (handler : MessageHandler)
  | setBridge (b : Option MessageBridge)
  | incoming (msg : Message)
  | stop

/-- The state after one call, or the state at the panic. -/
def Call.apply (order : Finset String → List String) (call : Call) (s : World) :
    Except World World :=
  match call with
  | Call.register c => handleEvent order (Event.register c) s
  | Call.unregister c => handleEvent order (Event.unregister c) s
  | Call.subscribe channel clientID => Except.ok (Subscribe channel clientID s).2
  | Call.unsubscribe channel clientID => Except.ok (Unsubscribe channel clientID s).2
  | Call.publish channel msg => handleEvent order (Publish channel msg) s
  | Call.broadcastToLocal msg => handleEvent order (BroadcastToLocal msg) s
  | Call.sendToClient clientID msg =>
    match SendToClient clientID msg s with
    | Except.ok r => Except.ok r.2
    | Except.error s1 => Except.error s1
  | Call.registerHandler channel handler => Except.ok (RegisterHandler channel handler s)
  | Call.setBridge b => Except.ok (SetBridge b s)
  | Call.incoming msg => handleEvent order (Event.incoming msg) s
  | Call.stop => Stop s

/-- The state after a sequence of calls, first to last, up to the first
panic. -/
def perform (order : Finset String → List String) : List Call → World → Except World World
  | [], s => Except.ok s
  | call :: calls, s =>
    match call.apply order s with
    | Except.ok s1 => perform order calls s1
    | Except.error s1 => Except.error s1

/-- Every `register` of the sequence is given a client that is not closed in
the state it is applied to. -/
def registersOpen (order : Finset String → List String) : List Call → World → Bool
  | [], _ => true
  | Call.register c :: calls, s => notClosed s c && registersOpen order calls (addClient c s)
  | call :: calls, s => registersOpen order calls (finalState (call.apply order s))

/-! ## The goroutines side by side: loop, fan-out and write pumps -/

/-- The body of the loop `for _, id := range ids` of `broadcastToChannel` for
one id: look the client up, skip it if it is gone, otherwise try a
non-blocking send. -/
def sendOne (msg : Message) (id : String) (s : World) : Except World World :=
  match s.hub.clients id with
  | none => Except.ok s
  | some c =>
    match (s.heap c).trySend msg with
    | none => Except.error s
    | some (true, c1) => Except.ok { s with heap := Function.update s.heap c c1 }
    | some (false, _) =>
      Except.ok (s.emit [Effect.log Level.warn "send buffer full, dropping" id])

/-- The hub with the write pumps of its clients: the status of the loop
goroutine; the fan-out it is in the middle of, as the message and the ids
still to visit; the messages of the broadcast and localCast events it has
taken up; and per client address the messages its `WritePump` has received
from `Send`, those `WriteJSON` has written, and whether the pump has
returned. -/
structure Net where
  world : World
  status : LoopStatus
  fanning : Option (Message × List String)
  handled : List Message
  taken : Nat → List Message
  written : Nat → List Message
  exited : Nat → Bool

/-- The net around a hub state before any pump has run. -/
def Net.start (s : World) : Net :=
  { world := s, status := LoopStatus.running, fanning := none, handled := [],
    taken := fun _ => [], written := fun _ => [], exited := fun _ => false }

/-- The loop takes up a broadcast or localCast event in state `w` (after
`publishToBridge` for a broadcast): the first part of `broadcastToChannel`
copies the subscriber ids of the channel, or returns if the channel is
absent. -/
def Net.beginFanOut (order : Finset String → List String) (bm : broadcastMsg) (w : World)
    (n : Net) : Net :=
  { n with
    world := w
    handled := n.handled ++ [bm.msg]
    fanning :=
      match w.hub.channels bm.channel with
      | none => none
      | some subs => some (bm.msg, order subs) }

/-- The loop goroutine, at its `select`, takes the case of event `e`.  In the
middle of a fan-out, or after `Run` has returned, no case is taken. -/
def Net.loopTurn (order : Finset String → List String) (e : Event) (n : Net) : Net :=
  match n.status, n.fanning with
  | LoopStatus.running, none =>
    match e with
    | Event.broadcast bm => n.beginFanOut order bm (publishToBridge bm.msg n.world)
    | Event.localCast bm => n.beginFanOut order bm n.world
    | _ =>
      { n with
        world := (loopStep order e (LoopStatus.running, n.world)).2
        status := (loopStep order e (LoopStatus.running, n.world)).1 }
  | _, _ => n

/-- The loop goroutine, in the middle of a fan-out, visits the next id; with
no id left the fan-out is over and the loop is back at its `select`. -/
def Net.sendTurn (n : Net) : Net :=
  match n.status, n.fanning with
  | LoopStatus.running, some (_, []) => { n with fanning := none }
  | LoopStatus.running, some (m, id :: rest) =>
    match sendOne m id n.world with
    | Except.ok w => { n with world := w, fanning := some (m, rest) }
    | Except.error w => { n with world := w, status := LoopStatus.panicked }
  | _, _ => n

/-- One turn of `(*Client).WritePump` of client `c` taking the case
`msg, ok := <-c.Send`: with a message buffered it is received and passed to
`WriteJSON`, whose failure (`writeOK = false`) makes the pump return; with
the buffer empty and closed `ok` is false and the pump returns; with the
buffer empty and open the case is not ready. -/
def writePump (c : Nat) (writeOK : Bool) (n : Net) : Net :=
  if n.exited c then n
  else
    match (n.world.heap c).Send with
    | [] =>
      if (n.world.heap c).closed then { n with exited := Function.update n.exited c true }
      else n
    | m :: _ =>
      { n with
        world := { n.world with heap := Function.update n.world.heap c (n.world.heap c).dequeue }
        taken := Function.update n.taken c (n.taken c ++ [m])
        written := if writeOK then Function.update n.written c (n.written c ++ [m]) else n.written
        exited := if writeOK then n.exited else Function.update n.exited c true }

/-- One turn of `(*Client).WritePump` of client `c` taking the case
`<-c.done`, ready once the client is closed: the pump returns. -/
def quitPump (c : Nat) (n : Net) : Net :=
  if n.exited c then n
  else if (n.world.heap c).closed then { n with exited := Function.update n.exited c true }
  else n

/-- A step of one of the goroutines: the loop taking an event, the loop
visiting the next id of its fan-out, a registry operation, a turn of a write
pump. -/
inductive Step where
  | loop (e : Event)
  | send
  | op (o : Op)
  | write (c : Nat) (writeOK : Bool)
  | quit (c : Nat)

/-- The message of a broadcast or localCast event. -/
def Event.fanned : Event → List Message
  | Event.broadcast bm => [bm.msg]
  | Event.localCast bm => [bm.msg]
  | _ => []

/-- The net after one step.  A panic of the loop goroutine ends the process,
after which nothing moves. -/
def Net.step (order : Finset String → List String) (st : Step) (n : Net) : Net :=
  if n.status = LoopStatus.panicked then n
  else
    match st with
    | Step.loop e => n.loopTurn order e
    | Step.send => n.sendTurn
    | Step.op o => { n with world := o.apply n.world }
    | Step.write c writeOK => writePump c writeOK n
    | Step.quit c => quitPump c n

/-- The net after a sequence of steps, first to last. -/
def Net.run (order : Finset String → List String) (steps : List Step) (n : Net) : Net :=
  steps.foldl (fun n st => n.step order st) n

/-- The messages of the broadcast and localCast events among the steps, in
order. -/
def loopMessages (steps : List Step) : List Message :=
  steps.flatMap fun st =>
    match st with
    | Step.loop e => e.fanned
    | _ => []

/-! ## bridge/redis.go -/

/-- The struct `bridge.redisEnvelope`. -/
structure redisEnvelope where
  InstanceID : String
  Message : Message
  deriving DecidableEq

/-- The object `json.Marshal` writes for a `redisEnvelope`, as in
`(*RedisBridge).Publish`: both keys always. -/
def redisEnvelope.Marshal (env : redisEnvelope) : EnvelopeJSON :=
  { instance_id := some env.InstanceID, message := some env.Message.Marshal }

/-- The envelope `json.Unmarshal` leaves in a zero `redisEnvelope`, as in
`handleRedisMessage`. -/
def EnvelopeJSON.Unmarshal (w : EnvelopeJSON) : redisEnvelope :=
  { InstanceID := w.instance_id.getD ""
    Message :=
      match w.message with
      | some m => m.Unmarshal
      | none => Message.zero }

/-- The fields of `bridge.RedisBridge` read by the ingress handler. -/
structure RedisBridge where
  instanceID : String
  active : Bool

/-- Calls made by the ingress handler. -/
inductive BridgeEffect where
  | log (level : Level) (text : String)
  | BroadcastToLocal (msg : Message)
  deriving DecidableEq

/-- Embeds `(*RedisBridge).handleRedisMessage`.  `unmarshal` stands for
`json.Unmarshal([]byte(payload), &env)`: the decoded envelope, or `none` on an
error. -/
def handleRedisMessage (unmarshal : String → Option redisEnvelope) (b : RedisBridge)
    (payload : String) : List BridgeEffect :=
  match unmarshal payload with
  | none => [BridgeEffect.log Level.error "failed to decode redis message"]
  | some env =>
    if env.InstanceID = b.instanceID then []
    else [BridgeEffect.log Level.debug "relaying message from redis",
      BridgeEffect.BroadcastToLocal env.Message]

/-- The arguments of the calls to `BroadcastToLocal`, in order. -/
def broadcastToLocalCalls (es : List BridgeEffect) : List Message :=
  es.filterMap fun e =>
    match e with
    | BridgeEffect.BroadcastToLocal m => some m
    | _ => none

/-! ## State predicates -/

/-- Every entry of `clients` is stored under the id of the client it points
to (`h.clients[c.ID] = c` is the only write). -/
def KeyedByID (s : World) : Prop :=
  ∀ id p, s.hub.clients id = some p → (s.heap p).ID = id

/-- Each registered client's own subscription set agrees with the channel
index. -/
def SubscriptionsAgree (s : World) : Prop :=
  ∀ id p, s.hub.clients id = some p →
    ∀ ch, ch ∈ (s.heap p).channels ↔ (s.heap p).ID ∈ subscribers s ch

/-- No key of `channels` holds an empty subscriber set. -/
def NoEmptyChannel (s : World) : Prop :=
  ∀ ch, s.hub.channels ch ≠ some ∅

/-- Every id in a subscriber set is a key of `clients`. -/
def SubscribersKnown (s : World) : Prop :=
  ∀ ch id, id ∈ subscribers s ch → (s.hub.clients id).isSome = true

/-- No registered client has its `closed` flag set. -/
def NoClosedClient (s : World) : Prop :=
  ∀ id p, s.hub.clients id = some p → (s.heap p).closed = false

/-- The entries of `clients` are stored under their own id and none of the
registered clients is closed. -/
def Sound (s : World) : Prop :=
  KeyedByID s ∧ NoClosedClient s

/-- What the steps keep true for client `p`, with `base` the content of its
buffer at the start: the messages received by its pump followed by those
still buffered form a subsequence of `base` followed by the messages the
loop has taken up, and even without the last of these while the fan-out of
that message has not visited the id of `p` yet; the ids still to visit are
distinct; what has been written is a prefix of what has been received, and
all of it while the pump runs. -/
def PumpInv (base : List Message) (p : Nat) (n : Net) : Prop :=
  KeyedByID n.world ∧
    List.Sublist (n.taken p ++ (n.world.heap p).Send) (base ++ n.handled) ∧
    (∀ m pending, n.fanning = some (m, pending) →
      pending.Nodup ∧ ∃ before, n.handled = before ++ [m] ∧
        ((n.world.heap p).ID ∈ pending →
          List.Sublist (n.taken p ++ (n.world.heap p).Send) (base ++ before))) ∧
    List.IsPrefix (n.written p) (n.taken p) ∧
    (n.exited p = false → n.written p = n.taken p)

/-- The list enumerates the set: every member once, nothing else. -/
def IsRangeOrder (order : Finset String → List String) : Prop :=
  ∀ subs, (order subs).Nodup ∧ ∀ id, id ∈ order subs ↔ id ∈ subs

/-- A range order: the keys in increasing order. -/
def sortedOrder (subs : Finset String) : List String :=
  subs.sort (fun a b => a ≤ b)

/-- Client objects for the examples: address 0 has id `a`, every other
address has id `b`. -/
def twoIds : Nat → String := fun p => if p = 0 then "a" else "b"

/-- Client objects for the examples that all carry the id `a`. -/
def oneId : Nat → String := fun _ => "a"

/-- A message for the examples. -/
def hello : Message :=
  { Channel := "x", Event := "test", Data := [("key", Any.str "value")], ClientID := "",
    Timestamp := 0 }

/-- A stand-in for `json.Unmarshal` for the examples: `peer` decodes to an
envelope of instance `node-2`, `self` to one of instance `node-1`, anything
else is a decode error. -/
def sampleUnmarshal (payload : String) : Option redisEnvelope :=
  if payload = "peer" then some { InstanceID := "node-2", Message := hello }
  else if payload = "self" then some { InstanceID := "node-1", Message := hello }
  else none

/-- A hub state for the examples: clients `a`, `b` and `c` are registered at
addresses 0, 1 and 2; `a` and `b` are subscribed to `x`; the buffer of `a`
is full. -/
def crowded : World :=
  { heap := fun p =>
      if p = 0 then
        { ID := "a", Send := List.replicate 256 hello, channels := {"x"}, closed := false }
      else if p = 1 then { ID := "b", Send := [], channels := {"x"}, closed := false }
      else NewClient "c"
    hub :=
      { clients := fun id =>
          if id = "a" then some 0 else if id = "b" then some 1
          else if id = "c" then some 2 else none
        channels := fun ch => if ch = "x" then some {"a", "b"} else none
        handlers := fun _ => none
        onConnect := 0
        onDisconn := 0
        bridge := none }
    trace := [] }

/-- A frame for the examples that carries no field at all. -/
def bareFrame : Frame :=
  { channel := none, event := none, data := none, client_id := none, timestamp := none }

/-- The message the read pump of client `a` delivers for `bareFrame` read at
time 7. -/
def bare : Message :=
  { Channel := "", Event := "", Data := [], ClientID := "a", Timestamp := 7 }

/-- A handler for the examples that returns no error. -/
def quietHandler : MessageHandler := fun _ _ => none

/-- Calls for the examples: two clients register, `a` subscribes to `x` and
is sent a message, a handler is registered and the hub is stopped. -/
def sampleCalls : List Call :=
  [Call.register 0, Call.register 1, Call.subscribe "x" "a", Call.sendToClient "a" hello,
    Call.registerHandler "x" quietHandler, Call.stop]

/-- Steps for the examples: a publish on `x` and its fan-out, a write by the
pump of client 0, a relayed message whose fan-out is interleaved with a
failed write, and a further publish. -/
def sampleSteps : List Step :=
  [Step.loop (Publish "x" hello), Step.send, Step.send, Step.write 0 true,
    Step.loop (BroadcastToLocal hello), Step.write 0 false, Step.send, Step.send,
    Step.loop (Publish "x" hello), Step.send]

/-- A frame for the examples that carries every field, with a client id
and a timestamp chosen by the sender. -/
def forgedFrame : Frame :=
  { channel := some "commands", event := some "run", data := some [("cmd", Any.str "test")],
    client_id := some "admin", timestamp := some 1 }

/-- The message the read pump of client `a` delivers for `forgedFrame` read
at time 7. -/
def forged : Message :=
  { Channel := "commands", Event := "run", Data := [("cmd", Any.str "test")], ClientID := "a",
    Timestamp := 7 }

/-- The message of `TestRedisEnvelopeRoundTrip`: its count is a `float64`. -/
def presence : Message :=
  { Channel := "presence", Event := "join",
    Data := [("user", Any.str "alice"), ("count", Any.number 5)], ClientID := "", Timestamp := 3 }

/-- The same message with its count held as an `int`. -/
def presenceInt : Message :=
  { Channel := "presence", Event := "join",
    Data := [("user", Any.str "alice"), ("count", Any.int 5)], ClientID := "", Timestamp := 3 }

/-- A hub state for the examples: the client at address 0, of id `a`, is
registered, unregistered and registered again, then subscribed to `x`.  Its
buffer was closed by the unregistration and stays closed. -/
def reopened : World :=
  run [Op.register 0, Op.unregister 0, Op.register 0, Op.subscribe "x" "a"] (World.fresh twoIds)

/-! ## Basic facts -/

@[simp] theorem emit_heap (s : World) (es : List Effect) : (s.emit es).heap = s.heap := rfl

@[simp] theorem emit_hub (s : World) (es : List Effect) : (s.emit es).hub = s.hub := rfl

@[simp] theorem emit_trace (s : World) (es : List Effect) :
    (s.emit es).trace = s.trace ++ es := rfl

@[simp] theorem AddChannel_ID (c : Client) (ch : String) : (c.AddChannel ch).ID = c.ID := rfl

@[simp] theorem RemoveChannel_ID (c : Client) (ch : String) : (c.RemoveChannel ch).ID = c.ID := rfl

@[simp] theorem enqueue_ID (c : Client) (m : Message) : (c.enqueue m).ID = c.ID := rfl

@[simp] theorem Close_ID (c : Client) : c.Close.ID = c.ID := by
  unfold Client.Close; split <;> rfl

@[simp] theorem Close_closed (c : Client) : c.Close.closed = true := by
  unfold Client.Close; cases h : c.closed <;> simp [h]

@[simp] theorem Close_channels (c : Client) : c.Close.channels = c.channels := by
  unfold Client.Close; split <;> rfl

theorem subscribers_none {s : World} {ch : String} (h : s.hub.channels ch = none) :
    subscribers s ch = ∅ := by
  simp [subscribers, h]

theorem subscribers_some {s : World} {ch : String} {subs : Finset String}
    (h : s.hub.channels ch = some subs) : subscribers s ch = subs := by
  simp [subscribers, h]

theorem mem_dropSubscriber (id x : String) (entry : Option (Finset String)) (subs : Finset String)
    (h : dropSubscriber id entry = some subs) :
    x ∈ subs ↔ x ≠ id ∧ ∃ old, entry = some old ∧ x ∈ old := by
  cases entry with
  | none => simp [dropSubscriber] at h
  | some old =>
    simp only [dropSubscriber] at h
    split at h
    · simp at h
    · simp only [Option.some.injEq] at h
      subst h
      simp [Finset.mem_erase]

theorem dropSubscriber_ne_empty (id : String) (entry : Option (Finset String)) :
    dropSubscriber id entry ≠ some ∅ := by
  cases entry with
  | none => simp [dropSubscriber]
  | some old =>
    simp only [dropSubscriber]
    split
    · simp
    · rename_i h
      intro h2
      simp only [Option.some.injEq] at h2
      rw [h2] at h
      simp at h

/-! ### Subscriber sets after each operation -/

theorem subscribers_addClient (c : Nat) (s : World) (ch : String) :
    subscribers (addClient c s) ch = subscribers s ch := rfl

theorem mem_subscribers_removeClient (c : Nat) (s : World) (p : Nat)
    (h : s.hub.clients (s.heap c).ID = some p) (ch x : String) :
    x ∈ subscribers (removeClient c s) ch ↔ x ≠ (s.heap c).ID ∧ x ∈ subscribers s ch := by
  have hch : (removeClient c s).hub.channels ch
      = dropSubscriber (s.heap c).ID (s.hub.channels ch) := by
    simp [removeClient, h]
  cases hd : dropSubscriber (s.heap c).ID (s.hub.channels ch) with
  | none =>
    rw [hd] at hch
    rw [subscribers_none hch]
    cases ho : s.hub.channels ch with
    | none => simp [subscribers_none ho]
    | some old =>
      rw [subscribers_some ho]
      simp only [ho, dropSubscriber] at hd
      split at hd
      · rename_i hcard
        have : old.erase (s.heap c).ID = ∅ := Finset.card_eq_zero.mp hcard
        constructor
        · intro hx; simp at hx
        · rintro ⟨hne, hx⟩
          have : x ∈ old.erase (s.heap c).ID := Finset.mem_erase.mpr ⟨hne, hx⟩
          simp_all
      · simp at hd
  | some subs =>
    rw [hd] at hch
    rw [subscribers_some hch, mem_dropSubscriber _ x _ _ hd]
    cases ho : s.hub.channels ch with
    | none => simp [subscribers_none ho]
    | some old => simp [subscribers_some ho]

theorem removeClient_absent (c : Nat) (s : World) (h : s.hub.clients (s.heap c).ID = none) :
    removeClient c s = s := by
  simp [removeClient, h]

theorem mem_subscribers_Subscribe (channel clientID : String) (s : World) (c : Nat)
    (h : s.hub.clients clientID = some c) (ch x : String) :
    x ∈ subscribers (Subscribe channel clientID s).2 ch ↔
      (ch = channel ∧ x = clientID) ∨ x ∈ subscribers s ch := by
  by_cases hch : ch = channel
  · subst hch
    cases ho : s.hub.channels ch <;>
      simp [Subscribe, h, subscribers, ho]
  · cases ho : s.hub.channels ch <;>
      simp [Subscribe, h, subscribers, ho, Function.update_noteq hch, hch]

theorem Subscribe_absent (channel clientID : String) (s : World)
    (h : s.hub.clients clientID = none) : Subscribe channel clientID s = (false, s) := by
  simp [Subscribe, h]

theorem mem_subscribers_Unsubscribe (channel clientID : String) (s : World) (ch x : String) :
    x ∈ subscribers (Unsubscribe channel clientID s).2 ch ↔
      x ∈ subscribers s ch ∧ ¬ (ch = channel ∧ x = clientID) := by
  cases hc : s.hub.channels channel with
  | none =>
    by_cases hch : ch = channel
    · subst hch; simp [Unsubscribe, hc, subscribers]
    · simp [Unsubscribe, hc, hch]
  | some subs =>
    by_cases hch : ch = channel
    · subst hch
      by_cases hcard : (subs.erase clientID).card = 0
      · have he : subs.erase clientID = ∅ := Finset.card_eq_zero.mp hcard
        simp only [Unsubscribe, hc, hcard, if_true, subscribers, Function.update_same,
          Finset.not_mem_empty, true_and, false_iff, not_and, not_not]
        intro hx
        by_contra hne
        have : x ∈ subs.erase clientID := Finset.mem_erase.mpr ⟨hne, hx⟩
        simp [he] at this
      · simp only [Unsubscribe, hc, hcard, if_false, subscribers, Function.update_same,
          Finset.mem_erase, true_and]
        tauto
    · have hu : (Unsubscribe channel clientID s).2.hub.channels ch = s.hub.channels ch := by
        simp only [Unsubscribe, hc]
        split <;> simp [Function.update_noteq hch]
      simp [subscribers, hu, hch]

/-! ### Clients and heap after each operation -/

theorem Unsubscribe_clients (channel clientID : String) (s : World) :
    (Unsubscribe channel clientID s).2.hub.clients = s.hub.clients := by
  unfold Unsubscribe; split <;> rfl

theorem Subscribe_clients (channel clientID : String) (s : World) :
    (Subscribe channel clientID s).2.hub.clients = s.hub.clients := by
  unfold Subscribe; split <;> rfl

theorem Unsubscribe_heap (channel clientID : String) (s : World) (p : Nat) :
    (Unsubscribe channel clientID s).2.heap p = s.heap p ∨
      (s.hub.clients clientID = some p ∧
        (Unsubscribe channel clientID s).2.heap p = (s.heap p).RemoveChannel channel) := by
  unfold Unsubscribe
  cases hc : s.hub.channels channel with
  | none => exact Or.inl rfl
  | some subs =>
    cases hcl : s.hub.clients clientID with
    | none => exact Or.inl rfl
    | some c =>
      by_cases hp : p = c
      · subst hp; right; simp
      · left; simp [Function.update_noteq hp]

theorem Subscribe_heap (channel clientID : String) (s : World) (p : Nat) :
    (Subscribe channel clientID s).2.heap p = s.heap p ∨
      (s.hub.clients clientID = some p ∧
        (Subscribe channel clientID s).2.heap p = (s.heap p).AddChannel channel) := by
  unfold Subscribe
  cases hcl : s.hub.clients clientID with
  | none => exact Or.inl rfl
  | some c =>
    by_cases hp : p = c
    · subst hp; right; simp
    · left; simp [Function.update_noteq hp]

theorem removeClient_heap (c : Nat) (s : World) (p : Nat) :
    (removeClient c s).heap p = s.heap p ∨
      (p = c ∧ (removeClient c s).heap p = (s.heap p).Close) := by
  cases hcl : s.hub.clients (s.heap c).ID with
  | none => left; rw [removeClient_absent c s hcl]
  | some q =>
    by_cases hp : p = c
    · subst hp; right; simp [removeClient, hcl]
    · left; simp [removeClient, hcl, Function.update_noteq hp]

theorem removeClient_clients (c : Nat) (s : World) (id : String) (p : Nat)
    (h : (removeClient c s).hub.clients id = some p) :
    id ≠ (s.heap c).ID ∧ s.hub.clients id = some p := by
  cases hcl : s.hub.clients (s.heap c).ID with
  | none =>
    rw [removeClient_absent c s hcl] at h
    refine ⟨fun hid => ?_, h⟩
    rw [hid] at h
    simp [h] at hcl
  | some q =>
    by_cases hid : id = (s.heap c).ID
    · subst hid; simp [removeClient, hcl] at h
    · exact ⟨hid, by simpa [removeClient, hcl, Function.update_noteq hid] using h⟩

theorem addClient_clients (c : Nat) (s : World) (id : String) (p : Nat)
    (h : (addClient c s).hub.clients id = some p) :
    (id = (s.heap c).ID ∧ p = c) ∨ (id ≠ (s.heap c).ID ∧ s.hub.clients id = some p) := by
  by_cases hid : id = (s.heap c).ID
  · subst hid
    left
    simpa [addClient, eq_comm] using h
  · right
    exact ⟨hid, by simpa [addClient, Function.update_noteq hid] using h⟩

theorem heap_ID_apply (op : Op) (s : World) (p : Nat) :
    ((op.apply s).heap p).ID = (s.heap p).ID := by
  cases op with
  | register c => rfl
  | unregister c =>
    rcases removeClient_heap c s p with h | ⟨_, h⟩ <;> simp [Op.apply, h]
  | subscribe channel clientID =>
    rcases Subscribe_heap channel clientID s p with h | ⟨_, h⟩ <;> simp [Op.apply, h]
  | unsubscribe channel clientID =>
    rcases Unsubscribe_heap channel clientID s p with h | ⟨_, h⟩ <;> simp [Op.apply, h]

/-! ### Invariants of every operation -/

theorem keyedByID_apply (op : Op) (s : World) (h : KeyedByID s) : KeyedByID (op.apply s) := by
  intro id p hp
  rw [heap_ID_apply]
  cases op with
  | register c =>
    rcases addClient_clients c s id p hp with ⟨h1, h2⟩ | ⟨_, h2⟩
    · rw [h1, h2]
    · exact h id p h2
  | unregister c => exact h id p (removeClient_clients c s id p hp).2
  | subscribe channel clientID =>
    exact h id p (by simpa [Op.apply, Subscribe_clients] using hp)
  | unsubscribe channel clientID =>
    exact h id p (by simpa [Op.apply, Unsubscribe_clients] using hp)

theorem noEmptyChannel_apply (op : Op) (s : World) (h : NoEmptyChannel s) :
    NoEmptyChannel (op.apply s) := by
  intro ch
  cases op with
  | register c => exact h ch
  | unregister c =>
    simp only [Op.apply, removeClient]
    split
    · exact h ch
    · exact dropSubscriber_ne_empty _ _
  | subscribe channel clientID =>
    simp only [Op.apply, Subscribe]
    split
    · exact h ch
    · by_cases hch : ch = channel
      · subst hch
        simp only [Function.update_same, ne_eq, Option.some.injEq]
        exact Finset.insert_ne_empty _ _
      · simpa [Function.update_noteq hch] using h ch
  | unsubscribe channel clientID =>
    cases hc : s.hub.channels channel with
    | none => simpa [Op.apply, Unsubscribe, hc] using h ch
    | some subs =>
      by_cases hch : ch = channel
      · subst hch
        by_cases hcard : (subs.erase clientID).card = 0
        · simp [Op.apply, Unsubscribe, hc, hcard]
        · have hne : subs.erase clientID ≠ ∅ := fun he => hcard (by simp [he])
          simpa [Op.apply, Unsubscribe, hc, hcard] using hne
      · simp only [Op.apply, Unsubscribe, hc]
        split <;> simpa [Function.update_noteq hch] using h ch

theorem subscribersKnown_apply (op : Op) (s : World) (h : SubscribersKnown s) :
    SubscribersKnown (op.apply s) := by
  intro ch x hx
  cases op with
  | register c =>
    have h1 := h ch x hx
    by_cases hid : x = (s.heap c).ID
    · subst hid; simp [Op.apply, addClient]
    · simpa [Op.apply, addClient, Function.update_noteq hid] using h1
  | unregister c =>
    cases hcl : s.hub.clients (s.heap c).ID with
    | none =>
      simp only [Op.apply, removeClient_absent c s hcl] at hx ⊢
      exact h ch x hx
    | some q =>
      simp only [Op.apply] at hx ⊢
      rw [mem_subscribers_removeClient c s q hcl] at hx
      have h1 := h ch x hx.2
      simpa [removeClient, hcl, Function.update_noteq hx.1] using h1
  | subscribe channel clientID =>
    simp only [Op.apply, Subscribe_clients] at hx ⊢
    cases hcl : s.hub.clients clientID with
    | none =>
      rw [Subscribe_absent channel clientID s hcl] at hx
      exact h ch x hx
    | some q =>
      rw [mem_subscribers_Subscribe channel clientID s q hcl] at hx
      rcases hx with ⟨_, hx⟩ | hx
      · subst hx; simp [hcl]
      · exact h ch x hx
  | unsubscribe channel clientID =>
    simp only [Op.apply, Unsubscribe_clients] at hx ⊢
    rw [mem_subscribers_Unsubscribe] at hx
    exact h ch x hx.1

theorem keyedByID_fresh (ids : Nat → String) : KeyedByID (World.fresh ids) := by
  intro id p hp; simp [World.fresh, New] at hp

theorem noEmptyChannel_fresh (ids : Nat → String) : NoEmptyChannel (World.fresh ids) := by
  intro ch; simp [World.fresh, New]

theorem subscribersKnown_fresh (ids : Nat → String) : SubscribersKnown (World.fresh ids) := by
  intro ch x hx; simp [World.fresh, New, subscribers] at hx

theorem keyedByID_run (ops : List Op) (s : World) (h : KeyedByID s) : KeyedByID (run ops s) := by
  induction ops generalizing s with
  | nil => exact h
  | cons op ops ih => exact ih _ (keyedByID_apply op s h)

theorem noEmptyChannel_run (ops : List Op) (s : World) (h : NoEmptyChannel s) :
    NoEmptyChannel (run ops s) := by
  induction ops generalizing s with
  | nil => exact h
  | cons op ops ih => exact ih _ (noEmptyChannel_apply op s h)

theorem subscribersKnown_run (ops : List Op) (s : World) (h : SubscribersKnown s) :
    SubscribersKnown (run ops s) := by
  induction ops generalizing s with
  | nil => exact h
  | cons op ops ih => exact ih _ (subscribersKnown_apply op s h)

/-! ### Agreement of the subscription sets with the index -/

theorem Subscribe_heap_present (channel clientID : String) (s : World) (c : Nat)
    (h : s.hub.clients clientID = some c) :
    (Subscribe channel clientID s).2.heap
      = Function.update s.heap c ((s.heap c).AddChannel channel) := by
  simp [Subscribe, h]

theorem Unsubscribe_absent (channel clientID : String) (s : World)
    (h : s.hub.channels channel = none) : Unsubscribe channel clientID s = (false, s) := by
  simp [Unsubscribe, h]

theorem Unsubscribe_heap_present (channel clientID : String) (s : World) (c : Nat)
    (subs : Finset String) (hc : s.hub.channels channel = some subs)
    (h : s.hub.clients clientID = some c) :
    (Unsubscribe channel clientID s).2.heap
      = Function.update s.heap c ((s.heap c).RemoveChannel channel) := by
  simp [Unsubscribe, h, hc]

theorem Unsubscribe_heap_unknown (channel clientID : String) (s : World)
    (h : s.hub.clients clientID = none) : (Unsubscribe channel clientID s).2.heap = s.heap := by
  unfold Unsubscribe
  split
  · rfl
  · simp [h]

theorem subscriptionsAgree_register (c : Nat) (s : World) (hk : SubscribersKnown s)
    (h : SubscriptionsAgree s) (hok : unregisteredAndUnsubscribed s c = true) :
    SubscriptionsAgree (addClient c s) := by
  simp only [unregisteredAndUnsubscribed, Bool.and_eq_true, Option.isNone_iff_eq_none,
    decide_eq_true_eq] at hok
  intro id p hp ch
  rcases addClient_clients c s id p hp with ⟨_, h2⟩ | ⟨_, h2⟩
  · subst h2
    show ch ∈ (s.heap p).channels ↔ (s.heap p).ID ∈ subscribers s ch
    rw [hok.2]
    constructor
    · intro hx; simp at hx
    · intro hx
      have := hk ch _ hx
      simp [hok.1] at this
  · exact h id p h2 ch

theorem subscriptionsAgree_apply (op : Op) (s : World) (hid : KeyedByID s)
    (h : SubscriptionsAgree s) (hreg : ∀ c, op ≠ Op.register c) :
    SubscriptionsAgree (op.apply s) := by
  intro id p hp ch
  cases op with
  | register c => exact absurd rfl (hreg c)
  | unregister c =>
    simp only [Op.apply] at hp ⊢
    obtain ⟨hne, hp1⟩ := removeClient_clients c s id p hp
    have hpid := hid id p hp1
    have hpc : p ≠ c := fun e => hne (by rw [← hpid, e])
    have hheap : (removeClient c s).heap p = s.heap p := by
      rcases removeClient_heap c s p with h1 | ⟨h1, _⟩
      · exact h1
      · exact absurd h1 hpc
    rw [hheap]
    cases hcl : s.hub.clients (s.heap c).ID with
    | none => rw [removeClient_absent c s hcl]; exact h id p hp1 ch
    | some q =>
      rw [mem_subscribers_removeClient c s q hcl, h id p hp1 ch, hpid]
      simp [hne]
  | subscribe channel clientID =>
    simp only [Op.apply, Subscribe_clients] at hp ⊢
    have hpid := hid id p hp
    cases hcl : s.hub.clients clientID with
    | none => rw [Subscribe_absent channel clientID s hcl]; exact h id p hp ch
    | some c =>
      rw [Subscribe_heap_present channel clientID s c hcl]
      by_cases hpc : p = c
      · subst hpc
        have hcid : id = clientID := by rw [← hpid, hid clientID p hcl]
        subst hcid
        simp only [Function.update_same, AddChannel_ID]
        rw [mem_subscribers_Subscribe channel id s p hcl, hpid]
        simp only [Client.AddChannel, Finset.mem_insert, and_true]
        rw [h id p hp ch, hpid]
      · have hne : id ≠ clientID := by
          intro e; rw [e, hcl] at hp; exact hpc (Option.some.inj hp).symm
        rw [Function.update_noteq hpc, mem_subscribers_Subscribe channel clientID s c hcl,
          h id p hp ch, hpid]
        simp [hne]
  | unsubscribe channel clientID =>
    simp only [Op.apply, Unsubscribe_clients] at hp ⊢
    have hpid := hid id p hp
    rw [mem_subscribers_Unsubscribe]
    cases hcl : s.hub.clients clientID with
    | none =>
      have hne : id ≠ clientID := by
        intro e; rw [e, hcl] at hp; exact Option.noConfusion hp
      rw [Unsubscribe_heap_unknown channel clientID s hcl, h id p hp ch, hpid]
      simp [hne]
    | some c =>
      cases hc : s.hub.channels channel with
      | none =>
        rw [Unsubscribe_absent channel clientID s hc, h id p hp ch, hpid]
        by_cases hch : ch = channel
        · subst hch; simp [subscribers_none hc]
        · simp [hch]
      | some subs =>
        rw [Unsubscribe_heap_present channel clientID s c subs hc hcl]
        by_cases hpc : p = c
        · subst hpc
          have hcid : id = clientID := by rw [← hpid, hid clientID p hcl]
          subst hcid
          simp only [Function.update_same, RemoveChannel_ID, Client.RemoveChannel,
            Finset.mem_erase]
          rw [h id p hp ch, hpid]
          tauto
        · have hne : id ≠ clientID := by
            intro e; rw [e, hcl] at hp; exact hpc (Option.some.inj hp).symm
          rw [Function.update_noteq hpc, h id p hp ch, hpid]
          simp [hne]

theorem subscriptionsAgree_run (ops : List Op) (s : World) (hid : KeyedByID s)
    (hk : SubscribersKnown s) (h : SubscriptionsAgree s)
    (hok : registersOK unregisteredAndUnsubscribed ops s = true) :
    SubscriptionsAgree (run ops s) := by
  induction ops generalizing s with
  | nil => exact h
  | cons op ops ih =>
    have hid1 := keyedByID_apply op s hid
    have hk1 := subscribersKnown_apply op s hk
    cases op with
    | register c =>
      simp only [registersOK, Bool.and_eq_true] at hok
      exact ih _ hid1 hk1 (subscriptionsAgree_register c s hk h hok.1) hok.2
    | unregister c =>
      exact ih _ hid1 hk1 (subscriptionsAgree_apply _ s hid h (fun _ e => Op.noConfusion e)) hok
    | subscribe channel clientID =>
      exact ih _ hid1 hk1 (subscriptionsAgree_apply _ s hid h (fun _ e => Op.noConfusion e)) hok
    | unsubscribe channel clientID =>
      exact ih _ hid1 hk1 (subscriptionsAgree_apply _ s hid h (fun _ e => Op.noConfusion e)) hok

theorem subscriptionsAgree_fresh (ids : Nat → String) : SubscriptionsAgree (World.fresh ids) := by
  intro id p hp; simp [World.fresh, New] at hp

/-! ### Closed clients -/

theorem noClosedClient_apply (op : Op) (s : World) (hid : KeyedByID s)
    (h : NoClosedClient s) (hreg : ∀ c, op = Op.register c → notClosed s c = true) :
    NoClosedClient (op.apply s) := by
  intro id p hp
  cases op with
  | register c =>
    have hc := hreg c rfl
    simp only [notClosed, Bool.not_eq_true'] at hc
    rcases addClient_clients c s id p hp with ⟨_, h2⟩ | ⟨_, h2⟩
    · subst h2; exact hc
    · exact h id p h2
  | unregister c =>
    simp only [Op.apply] at hp ⊢
    obtain ⟨hne, hp1⟩ := removeClient_clients c s id p hp
    have hpid := hid id p hp1
    have hpc : p ≠ c := fun e => hne (by rw [← hpid, e])
    rcases removeClient_heap c s p with h1 | ⟨h1, _⟩
    · rw [h1]; exact h id p hp1
    · exact absurd h1 hpc
  | subscribe channel clientID =>
    simp only [Op.apply, Subscribe_clients] at hp ⊢
    rcases Subscribe_heap channel clientID s p with h1 | ⟨_, h1⟩
    · rw [h1]; exact h id p hp
    · rw [h1]; exact h id p hp
  | unsubscribe channel clientID =>
    simp only [Op.apply, Unsubscribe_clients] at hp ⊢
    rcases Unsubscribe_heap channel clientID s p with h1 | ⟨_, h1⟩
    · rw [h1]; exact h id p hp
    · rw [h1]; exact h id p hp

theorem noClosedClient_run (ops : List Op) (s : World) (hid : KeyedByID s)
    (h : NoClosedClient s) (hok : registersOK notClosed ops s = true) :
    NoClosedClient (run ops s) := by
  induction ops generalizing s with
  | nil => exact h
  | cons op ops ih =>
    have hid1 := keyedByID_apply op s hid
    cases op with
    | register c =>
      simp only [registersOK, Bool.and_eq_true] at hok
      exact ih _ hid1 (noClosedClient_apply _ s hid h (fun c1 e => by cases e; exact hok.1)) hok.2
    | unregister c =>
      exact ih _ hid1 (noClosedClient_apply _ s hid h (fun _ e => Op.noConfusion e)) hok
    | subscribe channel clientID =>
      exact ih _ hid1 (noClosedClient_apply _ s hid h (fun _ e => Op.noConfusion e)) hok
    | unsubscribe channel clientID =>
      exact ih _ hid1 (noClosedClient_apply _ s hid h (fun _ e => Op.noConfusion e)) hok

theorem noClosedClient_fresh (ids : Nat → String) : NoClosedClient (World.fresh ids) := by
  intro id p hp; simp [World.fresh, New] at hp

/-! ## Registry invariants over operation sequences -/

/-- C1 (counterexample): the subscription sets and the channel index disagree
after a second client object is registered under an id that is already
subscribed, and after a client that was unregistered while subscribed is
registered again. -/
theorem subscriptions_disagree_after_reregistration :
    ¬ SubscriptionsAgree
        (run [Op.register 0, Op.subscribe "x" "a", Op.register 1] (World.fresh oneId)) ∧
    ¬ SubscriptionsAgree
        (run [Op.register 0, Op.subscribe "x" "a", Op.unregister 0, Op.register 0]
          (World.fresh twoIds)) := by
  constructor
  · intro h
    have h1 := h "a" 1 (by decide) "x"
    revert h1
    decide
  · intro h
    have h1 := h "a" 0 (by decide) "x"
    revert h1
    decide

/-- C1 (amended): for every sequence of register, unregister, subscribe and
unsubscribe operations on a fresh hub in which each register operation
registers a client whose id is not registered at that moment and whose own
subscription set is empty, every registered client `c` and channel `ch`
satisfy: `ch` is in the subscription set of `c` iff `c.ID` is in
`channels[ch]`. -/
theorem subscriptions_agree_of_fresh_registers (ids : Nat → String) (ops : List Op)
    (hok : registersOK unregisteredAndUnsubscribed ops (World.fresh ids) = true) :
    ∀ id p, (run ops (World.fresh ids)).hub.clients id = some p →
      ∀ ch, ch ∈ ((run ops (World.fresh ids)).heap p).channels ↔
        ((run ops (World.fresh ids)).heap p).ID ∈ subscribers (run ops (World.fresh ids)) ch :=
  subscriptionsAgree_run ops _ (keyedByID_fresh ids) (subscribersKnown_fresh ids)
    (subscriptionsAgree_fresh ids) hok

/-- Witness for C1 (amended): two clients, subscriptions, an unsubscribe, an
unregister and a later registration under the freed id. -/
theorem subscriptions_agree_of_fresh_registers_witness :
    registersOK unregisteredAndUnsubscribed
        [Op.register 0, Op.register 1, Op.subscribe "x" "a", Op.subscribe "x" "b",
          Op.subscribe "y" "b", Op.unsubscribe "x" "a", Op.unregister 1, Op.register 2]
        (World.fresh twoIds) = true ∧
    ∀ id p,
      (run [Op.register 0, Op.register 1, Op.subscribe "x" "a", Op.subscribe "x" "b",
          Op.subscribe "y" "b", Op.unsubscribe "x" "a", Op.unregister 1, Op.register 2]
        (World.fresh twoIds)).hub.clients id = some p →
      ∀ ch, ch ∈ ((run [Op.register 0, Op.register 1, Op.subscribe "x" "a",
          Op.subscribe "x" "b", Op.subscribe "y" "b", Op.unsubscribe "x" "a",
          Op.unregister 1, Op.register 2] (World.fresh twoIds)).heap p).channels ↔
        ((run [Op.register 0, Op.register 1, Op.subscribe "x" "a", Op.subscribe "x" "b",
          Op.subscribe "y" "b", Op.unsubscribe "x" "a", Op.unregister 1, Op.register 2]
          (World.fresh twoIds)).heap p).ID ∈
          subscribers (run [Op.register 0, Op.register 1, Op.subscribe "x" "a",
            Op.subscribe "x" "b", Op.subscribe "y" "b", Op.unsubscribe "x" "a",
            Op.unregister 1, Op.register 2] (World.fresh twoIds)) ch :=
  ⟨by decide, subscriptions_agree_of_fresh_registers twoIds _ (by decide)⟩

/-- C2: after every sequence of register, unregister, subscribe and
unsubscribe operations on a fresh hub, a channel name is a key of `channels`
iff its subscriber set is non-empty; and when the only subscriber of a
channel unsubscribes, or is unregistered, `Channels()` no longer has that
channel. -/
theorem channel_key_iff_nonempty (ids : Nat → String) (ops : List Op) (ch : String) :
    ((((run ops (World.fresh ids)).hub.channels ch).isSome = true ↔
      (subscribers (run ops (World.fresh ids)) ch).Nonempty)) ∧
    (∀ id, subscribers (run ops (World.fresh ids)) ch = {id} →
      Channels (Unsubscribe ch id (run ops (World.fresh ids))).2 ch = none) ∧
    (∀ c, subscribers (run ops (World.fresh ids)) ch
        = {((run ops (World.fresh ids)).heap c).ID} →
      Channels (removeClient c (run ops (World.fresh ids))) ch = none) := by
  have hne := noEmptyChannel_run ops _ (noEmptyChannel_fresh ids) ch
  have hk := subscribersKnown_run ops _ (subscribersKnown_fresh ids) ch
  generalize run ops (World.fresh ids) = s at hne hk ⊢
  have key : ∀ id, subscribers s ch = {id} → s.hub.channels ch = some {id} := by
    intro id h
    cases hc : s.hub.channels ch with
    | none => rw [subscribers_none hc] at h; exact absurd h.symm (Finset.singleton_ne_empty id)
    | some subs => rw [subscribers_some hc] at h; rw [h]
  refine ⟨?_, ?_, ?_⟩
  · cases hc : s.hub.channels ch with
    | none => simp [subscribers_none hc]
    | some subs =>
      rw [subscribers_some hc]
      simp only [Option.isSome_some, true_iff]
      exact Finset.nonempty_iff_ne_empty.mpr (fun e => hne (by rw [hc, e]))
  · intro id h
    simp [Channels, Unsubscribe, key id h]
  · intro c h
    have hmem : (s.heap c).ID ∈ subscribers s ch := by rw [h]; exact Finset.mem_singleton_self _
    have hreg := hk _ hmem
    obtain ⟨q, hq⟩ := Option.isSome_iff_exists.mp hreg
    simp [Channels, removeClient, hq, key _ h, dropSubscriber]

/-- Witness for C2: client `a` is the only subscriber of `x`. -/
theorem channel_key_iff_nonempty_witness :
    subscribers (run [Op.register 0, Op.register 1, Op.subscribe "x" "a"]
      (World.fresh twoIds)) "x" = {"a"} ∧
    Channels (run [Op.register 0, Op.register 1, Op.subscribe "x" "a"]
      (World.fresh twoIds)) "x" = some 1 ∧
    Channels (Unsubscribe "x" "a" (run [Op.register 0, Op.register 1, Op.subscribe "x" "a"]
      (World.fresh twoIds))).2 "x" = none ∧
    Channels (removeClient 0 (run [Op.register 0, Op.register 1, Op.subscribe "x" "a"]
      (World.fresh twoIds))) "x" = none :=
  ⟨by decide, by decide,
    (channel_key_iff_nonempty twoIds [Op.register 0, Op.register 1, Op.subscribe "x" "a"]
      "x").2.1 "a" (by decide),
    (channel_key_iff_nonempty twoIds [Op.register 0, Op.register 1, Op.subscribe "x" "a"]
      "x").2.2 0 (by decide)⟩

/-- C3: after every sequence of register, unregister, subscribe and
unsubscribe operations on a fresh hub, every client id in a subscriber set
`channels[ch]` is a key of `clients`. -/
theorem subscribers_are_registered (ids : Nat → String) (ops : List Op) (ch id : String)
    (subs : Finset String) (hch : (run ops (World.fresh ids)).hub.channels ch = some subs)
    (hid : id ∈ subs) : ∃ c, (run ops (World.fresh ids)).hub.clients id = some c := by
  have hk := subscribersKnown_run ops _ (subscribersKnown_fresh ids) ch id
  rw [subscribers_some hch] at hk
  exact Option.isSome_iff_exists.mp (hk hid)

/-- Witness for C3: client `b` subscribed to `x`, client `a` unregistered. -/
theorem subscribers_are_registered_witness :
    (run [Op.register 0, Op.register 1, Op.subscribe "x" "a", Op.subscribe "x" "b",
      Op.unregister 0] (World.fresh twoIds)).hub.channels "x" = some {"b"} ∧
    ∃ c, (run [Op.register 0, Op.register 1, Op.subscribe "x" "a", Op.subscribe "x" "b",
      Op.unregister 0] (World.fresh twoIds)).hub.clients "b" = some c :=
  ⟨by decide,
    subscribers_are_registered twoIds
      [Op.register 0, Op.register 1, Op.subscribe "x" "a", Op.subscribe "x" "b", Op.unregister 0]
      "x" "b" {"b"} (by decide) (by decide)⟩

/-- C4 (counterexample): a client that was unregistered, and thereby closed,
and is then registered again is a closed client in `clients`. -/
theorem closed_client_registered_again :
    ¬ NoClosedClient (run [Op.register 0, Op.unregister 0, Op.register 0] (World.fresh twoIds)) := by
  intro h
  have h1 := h "a" 0 (by decide)
  revert h1
  decide

/-- C4 (amended): for every sequence of register, unregister, subscribe and
unsubscribe operations on a fresh hub in which no register operation
registers a client that is already closed, no client with its closed flag
set is in `clients`. -/
theorem no_closed_client_of_open_registers (ids : Nat → String) (ops : List Op)
    (hok : registersOK notClosed ops (World.fresh ids) = true) :
    ∀ id p, (run ops (World.fresh ids)).hub.clients id = some p →
      ((run ops (World.fresh ids)).heap p).closed = false :=
  noClosedClient_run ops _ (keyedByID_fresh ids) (noClosedClient_fresh ids) hok

/-- Witness for C4 (amended): a second object takes over the id of a client
that was unregistered. -/
theorem no_closed_client_of_open_registers_witness :
    registersOK notClosed
      [Op.register 0, Op.subscribe "x" "a", Op.unregister 0, Op.register 1]
      (World.fresh oneId) = true ∧
    ∀ id p,
      (run [Op.register 0, Op.subscribe "x" "a", Op.unregister 0, Op.register 1]
        (World.fresh oneId)).hub.clients id = some p →
      ((run [Op.register 0, Op.subscribe "x" "a", Op.unregister 0, Op.register 1]
        (World.fresh oneId)).heap p).closed = false :=
  ⟨by decide, no_closed_client_of_open_registers oneId _ (by decide)⟩

/-! ## The local-only path and the relay ingress -/

theorem bridgePublishes_emit_log (s : World) (l : Level) (t f : String) :
    bridgePublishes (s.emit [Effect.log l t f]) = bridgePublishes s := by
  simp [bridgePublishes, List.filterMap_append]

theorem fanOut_cons_absent (msg : Message) (id : String) (ids : List String) (s : World)
    (h : s.hub.clients id = none) : fanOut msg (id :: ids) s = fanOut msg ids s := by
  simp [fanOut, h]

theorem fanOut_cons_closed (msg : Message) (id : String) (ids : List String) (s : World)
    (c : Nat) (h : s.hub.clients id = some c) (ht : (s.heap c).trySend msg = none) :
    fanOut msg (id :: ids) s = Except.error s := by
  simp [fanOut, h, ht]

theorem fanOut_cons_sent (msg : Message) (id : String) (ids : List String) (s : World)
    (c : Nat) (c1 : Client) (h : s.hub.clients id = some c)
    (ht : (s.heap c).trySend msg = some (true, c1)) :
    fanOut msg (id :: ids) s
      = fanOut msg ids { s with heap := Function.update s.heap c c1 } := by
  simp [fanOut, h, ht]

theorem fanOut_cons_full (msg : Message) (id : String) (ids : List String) (s : World)
    (c : Nat) (c1 : Client) (h : s.hub.clients id = some c)
    (ht : (s.heap c).trySend msg = some (false, c1)) :
    fanOut msg (id :: ids) s
      = fanOut msg ids (s.emit [Effect.log Level.warn "send buffer full, dropping" id]) := by
  simp [fanOut, h, ht]

theorem fanOut_bridgePublishes (msg : Message) (ids : List String) (s : World) :
    bridgePublishes (finalState (fanOut msg ids s)) = bridgePublishes s := by
  induction ids generalizing s with
  | nil => rfl
  | cons id ids ih =>
    cases hcl : s.hub.clients id with
    | none => rw [fanOut_cons_absent msg id ids s hcl]; exact ih s
    | some c =>
      cases hs : (s.heap c).trySend msg with
      | none => rw [fanOut_cons_closed msg id ids s c hcl hs]; rfl
      | some r =>
        obtain ⟨sent, c1⟩ := r
        cases sent with
        | true => rw [fanOut_cons_sent msg id ids s c c1 hcl hs, ih]; rfl
        | false =>
          rw [fanOut_cons_full msg id ids s c c1 hcl hs, ih, bridgePublishes_emit_log]

theorem broadcastToChannel_bridgePublishes (order : Finset String → List String)
    (channel : String) (msg : Message) (s : World) :
    bridgePublishes (finalState (broadcastToChannel order channel msg s)) = bridgePublishes s := by
  unfold broadcastToChannel
  split
  · rfl
  · exact fanOut_bridgePublishes msg _ s

/-- With an attached, available bridge, `publishToBridge` calls `Publish`
once, whether or not it returns an error. -/
theorem publishToBridge_available (msg : Message) (s : World) (b : MessageBridge)
    (hb : s.hub.bridge = some b) (ha : b.Available = true) :
    bridgePublishes (publishToBridge msg s) = bridgePublishes s ++ [msg] := by
  unfold publishToBridge
  cases hp : b.Publish msg <;>
    simp [hb, ha, hp, bridgePublishes, List.filterMap_append]

/-- C5: handling a localCast event makes no call to `Publish` on the bridge,
in every hub state, for every message and every bridge attachment; the event
that `BroadcastToLocal` submits is handled by the local fan-out on the
message's channel alone. -/
theorem localCast_never_publishes (order : Finset String → List String) (s : World) :
    (∀ bm, bridgePublishes (finalState (handleEvent order (Event.localCast bm) s))
        = bridgePublishes s) ∧
    (∀ msg, handleEvent order (BroadcastToLocal msg) s
        = broadcastToChannel order msg.Channel msg s ∧
      bridgePublishes (finalState (handleEvent order (BroadcastToLocal msg) s))
        = bridgePublishes s) :=
  ⟨fun bm => broadcastToChannel_bridgePublishes order bm.channel bm.msg s,
    fun msg => ⟨rfl, broadcastToChannel_bridgePublishes order msg.Channel msg s⟩⟩

/-- C6: the ingress handler calls `BroadcastToLocal` exactly once, with the
envelope's message, iff the payload decodes to an envelope whose instance id
differs from the bridge's own; for the bridge's own instance id, and for a
payload that fails to decode, it makes no call. -/
theorem handleRedisMessage_forwards_iff_foreign (unmarshal : String → Option redisEnvelope)
    (b : RedisBridge) (payload : String) :
    ((broadcastToLocalCalls (handleRedisMessage unmarshal b payload)).length = 1 ↔
      ∃ env, unmarshal payload = some env ∧ env.InstanceID ≠ b.instanceID) ∧
    (∀ env, unmarshal payload = some env → env.InstanceID ≠ b.instanceID →
      broadcastToLocalCalls (handleRedisMessage unmarshal b payload) = [env.Message]) ∧
    (∀ env, unmarshal payload = some env → env.InstanceID = b.instanceID →
      broadcastToLocalCalls (handleRedisMessage unmarshal b payload) = []) ∧
    (unmarshal payload = none →
      broadcastToLocalCalls (handleRedisMessage unmarshal b payload) = []) := by
  cases hu : unmarshal payload with
  | none => simp [handleRedisMessage, hu, broadcastToLocalCalls]
  | some env =>
    by_cases he : env.InstanceID = b.instanceID
    · simp [handleRedisMessage, hu, broadcastToLocalCalls, he]
    · simp [handleRedisMessage, hu, broadcastToLocalCalls, he]

/-- Witness for C6: bridge `node-1` forwards the envelope of `node-2`, drops
its own and drops an undecodable payload. -/
theorem handleRedisMessage_forwards_iff_foreign_witness :
    broadcastToLocalCalls
        (handleRedisMessage sampleUnmarshal { instanceID := "node-1", active := true } "peer")
      = [hello] ∧
    broadcastToLocalCalls
        (handleRedisMessage sampleUnmarshal { instanceID := "node-1", active := true } "self")
      = [] ∧
    broadcastToLocalCalls
        (handleRedisMessage sampleUnmarshal { instanceID := "node-1", active := true } "junk")
      = [] :=
  ⟨(handleRedisMessage_forwards_iff_foreign sampleUnmarshal
      { instanceID := "node-1", active := true } "peer").2.1
      { InstanceID := "node-2", Message := hello } (by decide) (by decide),
    (handleRedisMessage_forwards_iff_foreign sampleUnmarshal
      { instanceID := "node-1", active := true } "self").2.2.1
      { InstanceID := "node-1", Message := hello } (by decide) (by decide),
    (handleRedisMessage_forwards_iff_foreign sampleUnmarshal
      { instanceID := "node-1", active := true } "junk").2.2.2 (by decide)⟩

/-! ## Fan-out and direct send -/

theorem trySend_room (c : Client) (msg : Message) (hc : c.closed = false)
    (hl : c.Send.length < 256) :
    c.trySend msg = some (true, c.enqueue msg) := by
  simp [Client.trySend, hc, sendCap, hl]

theorem trySend_full (c : Client) (msg : Message) (hc : c.closed = false)
    (hl : ¬ c.Send.length < 256) : c.trySend msg = some (false, c) := by
  simp [Client.trySend, hc, sendCap, hl]

theorem trySend_closed (c : Client) (msg : Message) (hc : c.closed = true) :
    c.trySend msg = none := by
  simp [Client.trySend, hc]

theorem isRangeOrder_sortedOrder : IsRangeOrder sortedOrder := by
  intro subs
  exact ⟨Finset.sort_nodup _ subs, fun id => Finset.mem_sort _⟩

theorem fanOut_delivers (m : Message) (ids : List String) (s : World) (hnd : ids.Nodup)
    (hid : KeyedByID s)
    (hopen : ∀ id ∈ ids, ∀ p, s.hub.clients id = some p → (s.heap p).closed = false) :
    ∃ s1, fanOut m ids s = Except.ok s1 ∧ s1.hub = s.hub ∧
      ∀ p, s1.heap p =
        if s.hub.clients (s.heap p).ID = some p ∧ (s.heap p).ID ∈ ids ∧
            (s.heap p).Send.length < 256
        then (s.heap p).enqueue m else s.heap p := by
  induction ids generalizing s with
  | nil => exact ⟨s, rfl, rfl, fun p => by simp⟩
  | cons id ids ih =>
    obtain ⟨hnot, hnd1⟩ := List.nodup_cons.mp hnd
    cases hcl : s.hub.clients id with
    | none =>
      obtain ⟨s1, h1, h2, h3⟩ := ih s hnd1 hid
        (fun k hk => hopen k (List.mem_cons_of_mem _ hk))
      refine ⟨s1, by rw [fanOut_cons_absent m id ids s hcl]; exact h1, h2, fun p => ?_⟩
      rw [h3 p]
      have hne : s.hub.clients (s.heap p).ID = some p → (s.heap p).ID ≠ id := by
        intro hp e; rw [e, hcl] at hp; exact Option.noConfusion hp
      by_cases hp : s.hub.clients (s.heap p).ID = some p
      · simp [hp, hne hp]
      · simp [hp]
    | some c =>
      have hcid : (s.heap c).ID = id := hid id c hcl
      have hcopen : (s.heap c).closed = false := hopen id (List.mem_cons_self _ _) c hcl
      have other : ∀ p, p ≠ c →
          ((s.hub.clients (s.heap p).ID = some p ∧ (s.heap p).ID ∈ ids ∧
              (s.heap p).Send.length < 256) ↔
            (s.hub.clients (s.heap p).ID = some p ∧ (s.heap p).ID ∈ id :: ids ∧
              (s.heap p).Send.length < 256)) := by
        intro p hpc
        have hne : s.hub.clients (s.heap p).ID = some p → (s.heap p).ID ≠ id := by
          intro hp e; rw [e, hcl] at hp; exact hpc (Option.some.inj hp).symm
        constructor
        · rintro ⟨a, b, l⟩; exact ⟨a, List.mem_cons_of_mem _ b, l⟩
        · rintro ⟨a, b, l⟩
          rcases List.mem_cons.mp b with b | b
          · exact absurd b (hne a)
          · exact ⟨a, b, l⟩
      by_cases hlen : (s.heap c).Send.length < 256
      · have ht := trySend_room (s.heap c) m hcopen hlen
        rw [fanOut_cons_sent m id ids s c _ hcl ht]
        have hid1 : KeyedByID
            { s with heap := Function.update s.heap c ((s.heap c).enqueue m) } := by
          intro k p hp
          by_cases hpc : p = c
          · subst hpc; simp only [Function.update_same, Client.enqueue]; exact hid k p hp
          · simp only [Function.update_noteq hpc]; exact hid k p hp
        have hopen1 : ∀ k ∈ ids, ∀ p, s.hub.clients k = some p →
            (Function.update s.heap c ((s.heap c).enqueue m) p).closed = false := by
          intro k hk p hp
          by_cases hpc : p = c
          · subst hpc; simp only [Function.update_same, Client.enqueue]
            exact hopen k (List.mem_cons_of_mem _ hk) p hp
          · simp only [Function.update_noteq hpc]
            exact hopen k (List.mem_cons_of_mem _ hk) p hp
        obtain ⟨s1, h1, h2, h3⟩ := ih _ hnd1 hid1 hopen1
        refine ⟨s1, h1, h2, fun p => ?_⟩
        rw [h3 p]
        by_cases hpc : p = c
        · subst hpc
          simp only [Function.update_same, enqueue_ID]
          rw [if_neg (by simp [hcid, hnot]),
            if_pos ⟨by rw [hcid]; exact hcl, by rw [hcid]; exact List.mem_cons_self _ _, hlen⟩]
        · simp only [Function.update_noteq hpc]
          by_cases hq : s.hub.clients (s.heap p).ID = some p ∧ (s.heap p).ID ∈ ids ∧
              (s.heap p).Send.length < 256
          · rw [if_pos hq, if_pos ((other p hpc).mp hq)]
          · rw [if_neg hq, if_neg (fun h => hq ((other p hpc).mpr h))]
      · have ht := trySend_full (s.heap c) m hcopen hlen
        rw [fanOut_cons_full m id ids s c _ hcl ht]
        obtain ⟨s1, h1, h2, h3⟩ := ih (s.emit [Effect.log Level.warn "send buffer full, dropping" id])
          hnd1 hid (fun k hk => hopen k (List.mem_cons_of_mem _ hk))
        refine ⟨s1, h1, h2, fun p => ?_⟩
        rw [h3 p]
        simp only [emit_heap, emit_hub]
        by_cases hpc : p = c
        · subst hpc
          simp [hcid, hnot, hlen]
        · by_cases hq : s.hub.clients (s.heap p).ID = some p ∧ (s.heap p).ID ∈ ids ∧
              (s.heap p).Send.length < 256
          · rw [if_pos hq, if_pos ((other p hpc).mp hq)]
          · rw [if_neg hq, if_neg (fun h => hq ((other p hpc).mpr h))]

theorem broadcastToChannel_heap (order : Finset String → List String) (ch : String)
    (m : Message) (s : World) (hord : IsRangeOrder order) (hid : KeyedByID s)
    (hopen : ∀ id p, id ∈ subscribers s ch → s.hub.clients id = some p →
      (s.heap p).closed = false) :
    ∃ s1, broadcastToChannel order ch m s = Except.ok s1 ∧ s1.hub = s.hub ∧
      ∀ p, s1.heap p =
        if s.hub.clients (s.heap p).ID = some p ∧ (s.heap p).ID ∈ subscribers s ch ∧
            (s.heap p).Send.length < 256
        then (s.heap p).enqueue m else s.heap p := by
  cases hc : s.hub.channels ch with
  | none =>
    refine ⟨s, by simp [broadcastToChannel, hc], rfl, fun p => ?_⟩
    simp [subscribers_none hc]
  | some subs =>
    obtain ⟨s1, h1, h2, h3⟩ := fanOut_delivers m (order subs) s (hord subs).1 hid
      (fun id hk p hp => hopen id p
        (by rw [subscribers_some hc]; exact ((hord subs).2 id).mp hk) hp)
    refine ⟨s1, by simp [broadcastToChannel, hc, h1], h2, fun p => ?_⟩
    rw [h3 p, subscribers_some hc]
    simp only [(hord subs).2]

/-- C7 (counterexample): client `a` is registered, unregistered and
registered again, then subscribed to `x`.  It is a registered client whose id
is in `channels[x]` and whose buffer is empty, yet a fan-out of `hello` on `x`
appends nothing to its buffer: the send on its closed buffer panics. -/
theorem broadcastToChannel_misses_closed_subscriber :
    reopened.hub.clients "a" = some 0 ∧
    "a" ∈ subscribers reopened "x" ∧
    (reopened.heap 0).Send.length < 256 ∧
    completed (broadcastToChannel sortedOrder "x" hello reopened) = false ∧
    ((finalState (broadcastToChannel sortedOrder "x" hello reopened)).heap 0).Send = [] := by
  have hch : reopened.hub.channels "x" = some {"a"} := by decide
  have hsort : sortedOrder {"a"} = ["a"] := by simp [sortedOrder]
  have h : broadcastToChannel sortedOrder "x" hello reopened = Except.error reopened := by
    simp only [broadcastToChannel]
    rw [hch]
    simp only [hsort]
    exact fanOut_cons_closed hello "a" [] _ 0 (by decide) (by decide)
  rw [h]
  exact ⟨by decide, by decide, by decide, rfl, by decide⟩

/-- C7 (amended): in a hub whose clients are each stored under their own id,
and in which no registered client whose id is in `channels[ch]` is closed,
fanning out `m` to channel `ch`, in whatever order the subscriber ids are
visited, returns normally; every registered client whose id is in
`channels[ch]` and whose buffer holds fewer than 256 messages gets `m`
appended once at the tail, every other client object is unchanged, and the
hub's maps are unchanged. -/
theorem broadcastToChannel_delivers (order : Finset String → List String) (ch : String)
    (m : Message) (s : World) (hord : IsRangeOrder order) (hid : KeyedByID s)
    (hopen : ∀ id p, id ∈ subscribers s ch → s.hub.clients id = some p →
      (s.heap p).closed = false) :
    ∃ s1, broadcastToChannel order ch m s = Except.ok s1 ∧ s1.hub = s.hub ∧
      ∀ p, s1.heap p =
        if s.hub.clients (s.heap p).ID = some p ∧ (s.heap p).ID ∈ subscribers s ch ∧
            (s.heap p).Send.length < 256
        then (s.heap p).enqueue m else s.heap p :=
  broadcastToChannel_heap order ch m s hord hid hopen

theorem keyedByID_crowded : KeyedByID crowded := by
  intro id p hp
  simp only [crowded] at hp
  split_ifs at hp with h1 h2 h3
  · cases hp; subst h1; rfl
  · cases hp; subst h2; rfl
  · cases hp; subst h3; rfl

theorem noClosedClient_crowded : NoClosedClient crowded := by
  intro id p _
  simp only [crowded]
  split_ifs <;> rfl

/-- Witness for C7 (amended): in `crowded`, a fan-out on `x` reaches `b`, is
dropped for `a` whose buffer is full, and leaves the unsubscribed `c` alone. -/
theorem broadcastToChannel_delivers_witness :
    IsRangeOrder sortedOrder ∧ KeyedByID crowded ∧
    (∀ id p, id ∈ subscribers crowded "x" → crowded.hub.clients id = some p →
      (crowded.heap p).closed = false) ∧
    ∃ s1, broadcastToChannel sortedOrder "x" hello crowded = Except.ok s1 ∧
      s1.hub = crowded.hub ∧
      ∀ p, s1.heap p =
        if crowded.hub.clients (crowded.heap p).ID = some p ∧
            (crowded.heap p).ID ∈ subscribers crowded "x" ∧
            (crowded.heap p).Send.length < 256
        then (crowded.heap p).enqueue hello else crowded.heap p :=
  ⟨isRangeOrder_sortedOrder, keyedByID_crowded,
    fun id p _ hp => noClosedClient_crowded id p hp,
    broadcastToChannel_delivers sortedOrder "x" hello crowded isRangeOrder_sortedOrder
      keyedByID_crowded (fun id p _ hp => noClosedClient_crowded id p hp)⟩

/-- C8 (counterexample): `SendToClient` can end without returning true or
false.  First case: client `a` is registered, unregistered and registered
again; it is a registered client with an empty buffer, and the send on its
closed buffer panics.  Second case: client `a` is registered and open when
`SendToClient` looks it up, the loop handles its unregistration before the
send, and the send panics. -/
theorem SendToClient_panics_on_closed_buffer :
    reopened.hub.clients "a" = some 0 ∧
    (reopened.heap 0).Send.length < 256 ∧
    returned (SendToClient "a" hello reopened) = none ∧
    (run [Op.register 0] (World.fresh twoIds)).hub.clients "a" = some 0 ∧
    ((run [Op.register 0] (World.fresh twoIds)).heap 0).closed = false ∧
    ((run [Op.register 0] (World.fresh twoIds)).heap 0).Send.length < 256 ∧
    returned (SendToClientAfter (removeClient 0) "a" hello
      (run [Op.register 0] (World.fresh twoIds))) = none := by
  decide

/-- C8 (amended): let `between` be what the other goroutines do between the
lookup of `id` and the send.  When the client found under `id`, if any, is
at the time of the send not closed and holds at most 256 messages,
`SendToClient(id, msg)` returns; it returns false iff `id` was not registered
at the lookup or that client's buffer holds 256 messages at the send; on false
the call changes nothing; on true `msg` is appended at the tail of that
client's buffer and the call changes nothing else.  With nothing happening in
between this is `SendToClient` run in one piece. -/
theorem SendToClient_result (between : World → World) (id : String) (msg : Message)
    (s : World)
    (hopen : ∀ p, s.hub.clients id = some p → ((between s).heap p).closed = false)
    (hcap : ∀ p, s.hub.clients id = some p → ((between s).heap p).Send.length ≤ 256) :
    SendToClientAfter (fun w => w) id msg s = SendToClient id msg s ∧
    ∃ sent s1, SendToClientAfter between id msg s = Except.ok (sent, s1) ∧
      (sent = false ↔
        (s.hub.clients id = none ∨
          ∃ p, s.hub.clients id = some p ∧ ((between s).heap p).Send.length = 256)) ∧
      (sent = false →
        (s.hub.clients id = none ∧ s1 = s) ∨
          (∃ p, s.hub.clients id = some p ∧ s1 = between s)) ∧
      (sent = true → ∃ p, s.hub.clients id = some p ∧
        s1 = { between s with
          heap := Function.update (between s).heap p (((between s).heap p).enqueue msg) }) := by
  refine ⟨rfl, ?_⟩
  cases hcl : s.hub.clients id with
  | none =>
    exact ⟨false, s, by simp [SendToClientAfter, hcl], by simp, fun _ => Or.inl ⟨rfl, rfl⟩,
      by simp⟩
  | some c =>
    have ho := hopen c hcl
    have hc := hcap c hcl
    by_cases hlen : ((between s).heap c).Send.length < 256
    · refine ⟨true, _, by simp [SendToClientAfter, hcl, trySend_room _ msg ho hlen], ?_,
        by simp, fun _ => ⟨c, rfl, rfl⟩⟩
      simp only [Bool.true_eq_false, false_iff, not_or, not_exists, not_and]
      refine ⟨by simp, fun p hp => ?_⟩
      rw [← Option.some.inj hp]
      omega
    · refine ⟨false, between s, by simp [SendToClientAfter, hcl, trySend_full _ msg ho hlen],
        ?_, fun _ => Or.inr ⟨c, rfl, rfl⟩, by simp⟩
      simp only [true_iff]
      exact Or.inr ⟨c, rfl, by omega⟩

/-- Witness for C8 (amended): in `crowded`, client `c` is unregistered between
the lookup of `b` and the send; the direct send to `b` is enqueued. -/
theorem SendToClient_result_witness :
    (∀ p, crowded.hub.clients "b" = some p →
      ((removeClient 2 crowded).heap p).closed = false) ∧
    (∀ p, crowded.hub.clients "b" = some p →
      ((removeClient 2 crowded).heap p).Send.length ≤ 256) ∧
    SendToClientAfter (fun w => w) "b" hello crowded = SendToClient "b" hello crowded ∧
    ∃ sent s1, SendToClientAfter (removeClient 2) "b" hello crowded = Except.ok (sent, s1) ∧
      (sent = false ↔
        (crowded.hub.clients "b" = none ∨
          ∃ p, crowded.hub.clients "b" = some p ∧
            ((removeClient 2 crowded).heap p).Send.length = 256)) ∧
      (sent = false →
        (crowded.hub.clients "b" = none ∧ s1 = crowded) ∨
          (∃ p, crowded.hub.clients "b" = some p ∧ s1 = removeClient 2 crowded)) ∧
      (sent = true → ∃ p, crowded.hub.clients "b" = some p ∧
        s1 = { removeClient 2 crowded with
          heap := Function.update (removeClient 2 crowded).heap p
            (((removeClient 2 crowded).heap p).enqueue hello) }) :=
  ⟨fun p hp => by
      have h1 : some 1 = some p := hp
      cases h1
      decide,
    fun p hp => by
      have h1 : some 1 = some p := hp
      cases h1
      decide,
    SendToClient_result (removeClient 2) "b" hello crowded
      (fun p hp => by
        have h1 : some 1 = some p := hp
        cases h1
        decide)
      (fun p hp => by
        have h1 : some 1 = some p := hp
        cases h1
        decide)⟩

/-- C9: `Subscribe(channel, clientID)` returns false iff `clientID` is not a
registered client; on false the state is unchanged; on true `clientID` is in
`channels[channel]`, `channel` is in that client's subscription set, and
`clients` is unchanged. -/
theorem Subscribe_result (channel clientID : String) (s : World) :
    ((Subscribe channel clientID s).1 = false ↔ s.hub.clients clientID = none) ∧
    ((Subscribe channel clientID s).1 = false → (Subscribe channel clientID s).2 = s) ∧
    ((Subscribe channel clientID s).1 = true →
      ∃ c, s.hub.clients clientID = some c ∧
        (Subscribe channel clientID s).2.hub.clients = s.hub.clients ∧
        clientID ∈ subscribers (Subscribe channel clientID s).2 channel ∧
        channel ∈ ((Subscribe channel clientID s).2.heap c).channels) := by
  cases hcl : s.hub.clients clientID with
  | none => simp [Subscribe_absent channel clientID s hcl]
  | some c =>
    have h1 : (Subscribe channel clientID s).1 = true := by simp [Subscribe, hcl]
    refine ⟨by simp [h1], by simp [h1], fun _ => ⟨c, rfl, ?_, ?_, ?_⟩⟩
    · rw [Subscribe_clients]
    · rw [mem_subscribers_Subscribe channel clientID s c hcl]
      exact Or.inl ⟨rfl, rfl⟩
    · rw [Subscribe_heap_present channel clientID s c hcl]
      simp [Client.AddChannel]

/-- Witness for C9: subscribing an unknown id fails and changes nothing;
subscribing the registered `a` succeeds. -/
theorem Subscribe_result_witness :
    (Subscribe "x" "ghost" (run [Op.register 0] (World.fresh twoIds))).2
      = run [Op.register 0] (World.fresh twoIds) ∧
    ∃ c, (run [Op.register 0] (World.fresh twoIds)).hub.clients "a" = some c ∧
      (Subscribe "x" "a" (run [Op.register 0] (World.fresh twoIds))).2.hub.clients
        = (run [Op.register 0] (World.fresh twoIds)).hub.clients ∧
      "a" ∈ subscribers (Subscribe "x" "a" (run [Op.register 0] (World.fresh twoIds))).2 "x" ∧
      "x" ∈ ((Subscribe "x" "a" (run [Op.register 0] (World.fresh twoIds))).2.heap c).channels :=
  ⟨(Subscribe_result "x" "ghost" (run [Op.register 0] (World.fresh twoIds))).2.1 (by decide),
    (Subscribe_result "x" "a" (run [Op.register 0] (World.fresh twoIds))).2.2 (by decide)⟩

/-- C10: `Unsubscribe(channel, clientID)` returns false iff `channel` is not
a key of `channels`, for every `clientID`; on false the state is
unchanged. -/
theorem Unsubscribe_result (channel clientID : String) (s : World) :
    ((Unsubscribe channel clientID s).1 = false ↔ s.hub.channels channel = none) ∧
    ((Unsubscribe channel clientID s).1 = false → (Unsubscribe channel clientID s).2 = s) := by
  cases hc : s.hub.channels channel with
  | none => simp [Unsubscribe_absent channel clientID s hc]
  | some subs =>
    have h1 : (Unsubscribe channel clientID s).1 = true := by simp [Unsubscribe, hc]
    simp [h1]

/-- Witness for C10: unsubscribing from a channel without subscribers fails
and changes nothing; with the channel present the call succeeds even for an
unknown client id. -/
theorem Unsubscribe_result_witness :
    (Unsubscribe "y" "a" (run [Op.register 0, Op.subscribe "x" "a"] (World.fresh twoIds))).2
      = run [Op.register 0, Op.subscribe "x" "a"] (World.fresh twoIds) ∧
    (Unsubscribe "x" "ghost"
      (run [Op.register 0, Op.subscribe "x" "a"] (World.fresh twoIds))).1 = true :=
  ⟨(Unsubscribe_result "y" "a"
      (run [Op.register 0, Op.subscribe "x" "a"] (World.fresh twoIds))).2 (by decide),
    by decide⟩

/-! ## Stop and unregister -/

/-- C11 (code): on a fresh hub the first `Stop` closes `done` and returns,
and a second `Stop` panics on closing the closed channel. -/
theorem Stop_twice_panics (ids : Nat → String) :
    ∃ s1, Stop (World.fresh ids) = Except.ok s1 ∧ s1.hub.done = true ∧
      Stop s1 = Except.error s1 :=
  ⟨_, rfl, rfl, rfl⟩

theorem removeClient_ID (c : Nat) (s : World) :
    ((removeClient c s).heap c).ID = (s.heap c).ID := by
  rcases removeClient_heap c s c with h | ⟨_, h⟩ <;> simp [h]

theorem removeClient_clients_self (c : Nat) (s : World) :
    (removeClient c s).hub.clients (s.heap c).ID = none := by
  cases hcl : s.hub.clients (s.heap c).ID with
  | none => rw [removeClient_absent c s hcl]; exact hcl
  | some q => simp [removeClient, hcl]

/-- C12: handling an unregister event for a client whose id is not in
`clients` changes nothing: maps, client objects and trace are as before, so
the client is not closed and no disconnect callback runs; and unregistering
the same client twice gives the state of unregistering it once. -/
theorem unregister_idempotent (order : Finset String → List String) (c : Nat) (s : World) :
    (s.hub.clients (s.heap c).ID = none →
      handleEvent order (Event.unregister c) s = Except.ok s) ∧
    removeClient c (removeClient c s) = removeClient c s := by
  constructor
  · intro h
    simp [handleEvent, removeClient_absent c s h]
  · apply removeClient_absent
    rw [removeClient_ID]
    exact removeClient_clients_self c s

/-- Witness for C12: on a fresh hub client 0 is not registered. -/
theorem unregister_idempotent_witness :
    (World.fresh twoIds).hub.clients ((World.fresh twoIds).heap 0).ID = none ∧
    handleEvent sortedOrder (Event.unregister 0) (World.fresh twoIds)
      = Except.ok (World.fresh twoIds) :=
  ⟨by decide, (unregister_idempotent sortedOrder 0 (World.fresh twoIds)).1 (by decide)⟩

/-! ## Incoming messages -/

/-- C13 (counterexample): with a handler registered under the empty channel
name, an incoming message whose channel is empty is passed to that
handler. -/
theorem empty_channel_reaches_handler :
    bare.Channel = "" ∧
    handlerCalls (finalState (handleEvent sortedOrder (Event.incoming bare)
      (RegisterHandler "" quietHandler (World.fresh twoIds)))) = [("", "a", bare)] := by
  decide

/-- C13 (amended): in every hub state in which no handler is registered under
the empty channel name, an incoming message whose channel is the empty
string is dropped: the hub logs `no handler` and calls no handler. -/
theorem empty_channel_dropped (order : Finset String → List String) (s : World)
    (msg : Message) (hch : msg.Channel = "") (hnone : s.hub.handlers "" = none) :
    handleEvent order (Event.incoming msg) s
      = Except.ok (s.emit [Effect.log Level.debug "no handler" ""]) ∧
    handlerCalls (finalState (handleEvent order (Event.incoming msg) s)) = handlerCalls s := by
  have h : handleMessage msg s = s.emit [Effect.log Level.debug "no handler" ""] := by
    simp [handleMessage, hch, hnone]
  simp [handleEvent, h, finalState, handlerCalls, List.filterMap_append]

/-- Witness for C13 (amended): a handler is registered under `x` only. -/
theorem empty_channel_dropped_witness :
    bare.Channel = "" ∧
    (RegisterHandler "x" quietHandler (World.fresh twoIds)).hub.handlers "" = none ∧
    handleEvent sortedOrder (Event.incoming bare)
        (RegisterHandler "x" quietHandler (World.fresh twoIds))
      = Except.ok ((RegisterHandler "x" quietHandler (World.fresh twoIds)).emit
          [Effect.log Level.debug "no handler" ""]) ∧
    handlerCalls (finalState (handleEvent sortedOrder (Event.incoming bare)
        (RegisterHandler "x" quietHandler (World.fresh twoIds))))
      = handlerCalls (RegisterHandler "x" quietHandler (World.fresh twoIds)) :=
  ⟨rfl, by simp [RegisterHandler, World.fresh, New],
    empty_channel_dropped sortedOrder (RegisterHandler "x" quietHandler (World.fresh twoIds))
      bare rfl (by simp [RegisterHandler, World.fresh, New])⟩

/-- C15 (counterexample): for a frame that omits `event` the read pump
delivers a message whose event is the empty string, not `message`. -/
theorem readPump_omitted_event_is_empty :
    bareFrame.event = none ∧
    ReadPump 0 "a" [(7, bareFrame)] = [Event.incoming bare, Event.unregister 0] ∧
    bare.Event ≠ "message" :=
  ⟨rfl, rfl, by decide⟩

/-- C15 (amended): the read pump passes the event of a frame through
unchanged: every message it delivers comes from one of the frames read, with
that frame's event, and with the empty event when the frame omits it. -/
theorem readPump_event_passthrough (c : Nat) (id : String) (reads : List (Int × Frame))
    (m : Message) (h : Event.incoming m ∈ ReadPump c id reads) :
    ∃ r, r ∈ reads ∧ m = r.2.ReadJSON.stamp id r.1 ∧
      m.Event = r.2.event.getD "" ∧ (r.2.event = none → m.Event = "") := by
  simp only [ReadPump, List.mem_append, List.mem_map, List.mem_singleton] at h
  rcases h with ⟨r, hr, he⟩ | h
  · refine ⟨r, hr, ?_, ?_, ?_⟩
    · exact (Event.incoming.inj he).symm
    · rw [← Event.incoming.inj he]; rfl
    · intro hn; rw [← Event.incoming.inj he]; simp [Frame.ReadJSON, Message.stamp, hn]
  · exact Event.noConfusion h

/-- Witness for C15 (amended): the pump of `a` reads `bareFrame`. -/
theorem readPump_event_passthrough_witness :
    Event.incoming bare ∈ ReadPump 0 "a" [(7, bareFrame)] ∧
    ∃ r, r ∈ [((7 : Int), bareFrame)] ∧
      bare = r.2.ReadJSON.stamp "a" r.1 ∧
      bare.Event = r.2.event.getD "" ∧ (r.2.event = none → bare.Event = "") :=
  ⟨List.mem_cons_self _ _,
    readPump_event_passthrough 0 "a" [(7, bareFrame)] bare (List.mem_cons_self _ _)⟩

/-! ## The service facade -/

/-- C16 (counterexample): a `map[string]string` is a string-keyed mapping,
yet `Service.Publish` and `Service.SendToClient` do not take it as the data:
they wrap it under the key `value`. -/
theorem service_wraps_typed_map :
    (Service.Publish 5 "news" (Any.strMap [("headline", "test")])).1
      = Publish "news"
          { Channel := "news", Event := "message",
            Data := [("value", Any.strMap [("headline", "test")])],
            ClientID := "", Timestamp := 5 } ∧
    (match Service.SendToClient 5 "b" "news" (Any.strMap [("headline", "test")]) crowded with
      | Except.ok r => (r.2.heap 1).Send
      | Except.error _ => [])
      = [{ Channel := "news", Event := "message",
           Data := [("value", Any.strMap [("headline", "test")])],
           ClientID := "", Timestamp := 5 }] ∧
    [("value", Any.strMap [("headline", "test")])] ≠ [("headline", Any.str "test")] :=
  ⟨rfl, by decide, by decide⟩

/-- C16 (amended): for every channel and data value, `Service.Publish` and
`Service.SendToClient` build one and the same message: its channel is the
given channel, its event is `message`, its client id is empty, and its data
is the given value itself when that is a `map[string]any` and the one-entry
map from `value` to the given value for every other value, a string-keyed
map of another type included. -/
theorem service_message (now : Int) (channel : String) (data : Any) :
    ∃ msg : Message,
      msg.Channel = channel ∧ msg.Event = "message" ∧ msg.ClientID = "" ∧
      msg.Timestamp = now ∧
      (∀ m, data = Any.object m → msg.Data = m) ∧
      ((∀ m, data ≠ Any.object m) → msg.Data = [("value", data)]) ∧
      Service.Publish now channel data = (Publish channel msg, none) ∧
      ∀ clientID s, Service.SendToClient now clientID channel data s =
        match SendToClient clientID msg s with
        | Except.error s1 => Except.error s1
        | Except.ok (true, s1) => Except.ok (none, s1)
        | Except.ok (false, s1) =>
          Except.ok (some ("client " ++ clientID ++ " not found or buffer full"), s1) := by
  refine ⟨{ Channel := channel, Event := "message",
            Data := (match data with
              | Any.object m => m
              | other => [("value", other)]),
            ClientID := "", Timestamp := now }, rfl, rfl, rfl, rfl, ?_, ?_, rfl, fun _ _ => rfl⟩
  · intro m hm; subst hm; rfl
  · intro hne
    cases data with
    | object m => exact absurd rfl (hne m)
    | null => rfl
    | bool b => rfl
    | number n => rfl
    | int n => rfl
    | str t => rfl
    | array items => rfl
    | strMap fields => rfl

/-- Witness for C16 (amended): a `map[string]any` is passed as it is, a
string is wrapped. -/
theorem service_message_witness :
    (Service.Publish 5 "news" (Any.object [("headline", Any.str "test")])).1
      = Publish "news"
          { Channel := "news", Event := "message", Data := [("headline", Any.str "test")],
            ClientID := "", Timestamp := 5 } ∧
    (Service.Publish 5 "dm" (Any.str "hi")).1
      = Publish "dm"
          { Channel := "dm", Event := "message", Data := [("value", Any.str "hi")],
            ClientID := "", Timestamp := 5 } := by
  constructor
  · obtain ⟨msg, h1, h2, h3, h4, h5, _, h7, _⟩ :=
      service_message 5 "news" (Any.object [("headline", Any.str "test")])
    have h8 := h5 _ rfl
    rw [h7]
    cases msg
    simp_all
  · obtain ⟨msg, h1, h2, h3, h4, _, h6, h7, _⟩ := service_message 5 "dm" (Any.str "hi")
    have h8 := h6 (fun m e => Any.noConfusion e)
    rw [h7]
    cases msg
    simp_all

/-! ## Broadcast events and the bridge -/

@[simp] theorem publishToBridge_heap (msg : Message) (s : World) :
    (publishToBridge msg s).heap = s.heap := by
  unfold publishToBridge
  split
  · rfl
  · split
    · rfl
    · split <;> rfl

@[simp] theorem publishToBridge_hub (msg : Message) (s : World) :
    (publishToBridge msg s).hub = s.hub := by
  unfold publishToBridge
  split
  · rfl
  · split
    · rfl
    · split <;> rfl

theorem fanOut_heap_indep (m : Message) (ids : List String) (s t : World)
    (hh : s.heap = t.heap) (hc : s.hub.clients = t.hub.clients) :
    (finalState (fanOut m ids s)).heap = (finalState (fanOut m ids t)).heap ∧
      completed (fanOut m ids s) = completed (fanOut m ids t) := by
  induction ids generalizing s t with
  | nil => exact ⟨hh, rfl⟩
  | cons id ids ih =>
    cases hcl : t.hub.clients id with
    | none =>
      rw [fanOut_cons_absent m id ids t hcl, fanOut_cons_absent m id ids s (by rw [hc]; exact hcl)]
      exact ih s t hh hc
    | some c =>
      have hcs : s.hub.clients id = some c := by rw [hc]; exact hcl
      cases ht : (t.heap c).trySend m with
      | none =>
        rw [fanOut_cons_closed m id ids t c hcl ht,
          fanOut_cons_closed m id ids s c hcs (by rw [hh]; exact ht)]
        exact ⟨hh, rfl⟩
      | some r =>
        obtain ⟨sent, c1⟩ := r
        cases sent with
        | true =>
          rw [fanOut_cons_sent m id ids t c c1 hcl ht,
            fanOut_cons_sent m id ids s c c1 hcs (by rw [hh]; exact ht)]
          exact ih _ _ (by simp [hh]) hc
        | false =>
          rw [fanOut_cons_full m id ids t c c1 hcl ht,
            fanOut_cons_full m id ids s c c1 hcs (by rw [hh]; exact ht)]
          exact ih _ _ hh hc

theorem broadcastToChannel_heap_indep (order : Finset String → List String) (channel : String)
    (m : Message) (s t : World) (hh : s.heap = t.heap) (hc : s.hub.clients = t.hub.clients)
    (hch : s.hub.channels = t.hub.channels) :
    (finalState (broadcastToChannel order channel m s)).heap
        = (finalState (broadcastToChannel order channel m t)).heap ∧
      completed (broadcastToChannel order channel m s)
        = completed (broadcastToChannel order channel m t) := by
  unfold broadcastToChannel
  rw [hch]
  cases t.hub.channels channel with
  | none => exact ⟨hh, rfl⟩
  | some subs => exact fanOut_heap_indep m (order subs) s t hh hc

/-- C19: for every hub state and broadcast event, the client objects (and so
every outbound buffer) after the event are the same whatever bridge is
attached (none, one that is unavailable, one whose `Publish` succeeds, one
whose `Publish` returns an error), and are those left by a localCast event
with the same channel and message; the event panics with one bridge iff it
does with any other. -/
theorem broadcast_fanout_ignores_bridge (order : Finset String → List String) (s : World)
    (bm : broadcastMsg) (b : Option MessageBridge) :
    (finalState (handleEvent order (Event.broadcast bm) (SetBridge b s))).heap
        = (finalState (handleEvent order (Event.localCast bm) s)).heap ∧
      completed (handleEvent order (Event.broadcast bm) (SetBridge b s))
        = completed (handleEvent order (Event.localCast bm) s) :=
  broadcastToChannel_heap_indep order bm.channel bm.msg _ _ (by simp [SetBridge])
    (by simp [SetBridge]) (by simp [SetBridge])

/-- C20 (counterexample): with `a` subscribed to `x` and `b` to `y`,
`Publish("y", hello)` for the message `hello` of channel `x` is fanned out to
`b`, the subscriber of the channel argument, and not to `a`, the subscriber of
the message's channel. -/
theorem publish_ignores_message_channel :
    hello.Channel = "x" ∧
    subscribers (run [Op.register 0, Op.register 1, Op.subscribe "x" "a",
      Op.subscribe "y" "b"] (World.fresh twoIds)) "x" = {"a"} ∧
    ((finalState (handleEvent sortedOrder (Publish "y" hello)
      (run [Op.register 0, Op.register 1, Op.subscribe "x" "a", Op.subscribe "y" "b"]
        (World.fresh twoIds)))).heap 0).Send = [] ∧
    ((finalState (handleEvent sortedOrder (Publish "y" hello)
      (run [Op.register 0, Op.register 1, Op.subscribe "x" "a", Op.subscribe "y" "b"]
        (World.fresh twoIds)))).heap 1).Send = [hello] := by
  have hid : KeyedByID (publishToBridge hello
      (run [Op.register 0, Op.register 1, Op.subscribe "x" "a", Op.subscribe "y" "b"]
        (World.fresh twoIds))) := by
    intro id p hp
    rw [publishToBridge_hub] at hp
    rw [publishToBridge_heap]
    exact keyedByID_run _ _ (keyedByID_fresh twoIds) id p hp
  have hopen : NoClosedClient (publishToBridge hello
      (run [Op.register 0, Op.register 1, Op.subscribe "x" "a", Op.subscribe "y" "b"]
        (World.fresh twoIds))) := by
    intro id p hp
    rw [publishToBridge_hub] at hp
    rw [publishToBridge_heap]
    exact noClosedClient_run _ _ (keyedByID_fresh twoIds) (noClosedClient_fresh twoIds)
      (by decide) id p hp
  obtain ⟨s1, h1, _, h3⟩ :=
    broadcastToChannel_heap sortedOrder "y" hello _ isRangeOrder_sortedOrder hid
      (fun id p _ hp => hopen id p hp)
  have h4 : handleEvent sortedOrder (Publish "y" hello)
      (run [Op.register 0, Op.register 1, Op.subscribe "x" "a", Op.subscribe "y" "b"]
        (World.fresh twoIds)) = Except.ok s1 := h1
  rw [h4]
  refine ⟨rfl, by decide, ?_, ?_⟩
  · show (s1.heap 0).Send = []
    rw [h3 0]
    decide
  · show (s1.heap 1).Send = [hello]
    rw [h3 1]
    decide

theorem fanOut_touched (m : Message) (ids : List String) (s : World) (p : Nat)
    (h : (finalState (fanOut m ids s)).heap p ≠ s.heap p) :
    ∃ id, id ∈ ids ∧ s.hub.clients id = some p := by
  induction ids generalizing s with
  | nil => exact absurd rfl h
  | cons id ids ih =>
    cases hcl : s.hub.clients id with
    | none =>
      rw [fanOut_cons_absent m id ids s hcl] at h
      obtain ⟨k, hk, hp⟩ := ih s h
      exact ⟨k, List.mem_cons_of_mem _ hk, hp⟩
    | some c =>
      cases ht : (s.heap c).trySend m with
      | none =>
        rw [fanOut_cons_closed m id ids s c hcl ht] at h
        exact absurd rfl h
      | some r =>
        obtain ⟨sent, c1⟩ := r
        cases sent with
        | true =>
          rw [fanOut_cons_sent m id ids s c c1 hcl ht] at h
          by_cases hpc : p = c
          · exact ⟨id, List.mem_cons_self _ _, by rw [hpc]; exact hcl⟩
          · have h1 : (finalState (fanOut m ids
                { s with heap := Function.update s.heap c c1 })).heap p
                ≠ (Function.update s.heap c c1) p := by
              rw [Function.update_noteq hpc]
              exact h
            obtain ⟨k, hk, hp⟩ := ih _ h1
            exact ⟨k, List.mem_cons_of_mem _ hk, hp⟩
        | false =>
          rw [fanOut_cons_full m id ids s c c1 hcl ht] at h
          obtain ⟨k, hk, hp⟩ := ih _ h
          exact ⟨k, List.mem_cons_of_mem _ hk, hp⟩

theorem broadcastToChannel_touched (order : Finset String → List String) (ch : String)
    (m : Message) (s : World) (hord : IsRangeOrder order) (p : Nat)
    (h : (finalState (broadcastToChannel order ch m s)).heap p ≠ s.heap p) :
    ∃ id, id ∈ subscribers s ch ∧ s.hub.clients id = some p := by
  cases hc : s.hub.channels ch with
  | none =>
    simp only [broadcastToChannel, hc] at h
    exact absurd rfl h
  | some subs =>
    simp only [broadcastToChannel, hc] at h
    obtain ⟨k, hk, hp⟩ := fanOut_touched m (order subs) s p h
    exact ⟨k, by rw [subscribers_some hc]; exact ((hord subs).2 k).mp hk, hp⟩

/-- C20 (amended): for every `Publish(channel, msg)`, in whatever order the
subscriber ids are visited, local fan-out goes to the subscriber set of the
`channel` argument, whatever `msg.Channel` is.  (1) A client object changed by
the event is registered under an id in `channels[channel]`.  (2) When every
client is stored under its own id and no registered client whose id is in
`channels[channel]` is closed, the event completes, and exactly the registered
clients whose id is in `channels[channel]` and whose buffer holds fewer than
256 messages get `msg` appended once.  (3) When the argument equals
`msg.Channel`, the client objects after the event, and whether it panics, are
those of the localCast event under which peer instances deliver the relayed
message. -/
theorem publish_fans_out_on_argument (order : Finset String → List String) (channel : String)
    (msg : Message) (s : World) (hord : IsRangeOrder order) :
    (∀ p, (finalState (handleEvent order (Publish channel msg) s)).heap p ≠ s.heap p →
      ∃ id, id ∈ subscribers s channel ∧ s.hub.clients id = some p) ∧
    (KeyedByID s →
      (∀ id p, id ∈ subscribers s channel → s.hub.clients id = some p →
        (s.heap p).closed = false) →
      ∃ s1, handleEvent order (Publish channel msg) s = Except.ok s1 ∧
        ∀ p, s1.heap p =
          if s.hub.clients (s.heap p).ID = some p ∧ (s.heap p).ID ∈ subscribers s channel ∧
              (s.heap p).Send.length < 256
          then (s.heap p).enqueue msg else s.heap p) ∧
    (channel = msg.Channel →
      (finalState (handleEvent order (Publish channel msg) s)).heap
          = (finalState (handleEvent order (BroadcastToLocal msg) s)).heap ∧
        completed (handleEvent order (Publish channel msg) s)
          = completed (handleEvent order (BroadcastToLocal msg) s)) := by
  have hsub : subscribers (publishToBridge msg s) channel = subscribers s channel := by
    simp [subscribers]
  refine ⟨fun p hp => ?_, fun hid hopen => ?_, fun hch => ?_⟩
  · have h1 : (finalState (broadcastToChannel order channel msg (publishToBridge msg s))).heap p
        ≠ (publishToBridge msg s).heap p := by
      rw [publishToBridge_heap]
      exact hp
    obtain ⟨k, hk, hk2⟩ :=
      broadcastToChannel_touched order channel msg (publishToBridge msg s) hord p h1
    rw [hsub] at hk
    rw [publishToBridge_hub] at hk2
    exact ⟨k, hk, hk2⟩
  · have hid1 : KeyedByID (publishToBridge msg s) := by
      intro id p hp
      rw [publishToBridge_hub] at hp
      rw [publishToBridge_heap]
      exact hid id p hp
    have hopen1 : ∀ id p, id ∈ subscribers (publishToBridge msg s) channel →
        (publishToBridge msg s).hub.clients id = some p →
        ((publishToBridge msg s).heap p).closed = false := by
      intro id p hk hp
      rw [hsub] at hk
      rw [publishToBridge_hub] at hp
      rw [publishToBridge_heap]
      exact hopen id p hk hp
    obtain ⟨s1, h1, _, h3⟩ :=
      broadcastToChannel_heap order channel msg (publishToBridge msg s) hord hid1 hopen1
    refine ⟨s1, h1, fun p => ?_⟩
    have := h3 p
    simpa [subscribers] using this
  · subst hch
    have h4 := broadcastToChannel_heap_indep order msg.Channel msg (publishToBridge msg s) s
      (by simp) (by simp) (by simp)
    exact h4

/-- Witness for C20 (amended): a publish on `x` in `crowded`. -/
theorem publish_fans_out_on_argument_witness :
    IsRangeOrder sortedOrder ∧ KeyedByID crowded ∧
    (∀ id p, id ∈ subscribers crowded "x" → crowded.hub.clients id = some p →
      (crowded.heap p).closed = false) ∧
    (∃ s1, handleEvent sortedOrder (Publish "x" hello) crowded = Except.ok s1 ∧
      ∀ p, s1.heap p =
        if crowded.hub.clients (crowded.heap p).ID = some p ∧
            (crowded.heap p).ID ∈ subscribers crowded "x" ∧
            (crowded.heap p).Send.length < 256
        then (crowded.heap p).enqueue hello else crowded.heap p) ∧
    (finalState (handleEvent sortedOrder (Publish "x" hello) crowded)).heap
      = (finalState (handleEvent sortedOrder (BroadcastToLocal hello) crowded)).heap :=
  ⟨isRangeOrder_sortedOrder, keyedByID_crowded,
    fun id p _ hp => noClosedClient_crowded id p hp,
    (publish_fans_out_on_argument sortedOrder "x" hello crowded isRangeOrder_sortedOrder).2.1
      keyedByID_crowded (fun id p _ hp => noClosedClient_crowded id p hp),
    ((publish_fans_out_on_argument sortedOrder "x" hello crowded isRangeOrder_sortedOrder).2.2
      rfl).1⟩

/-! ## No event is fatal to the loop -/

theorem sound_of_same (s t : World) (hc : t.hub.clients = s.hub.clients)
    (hh : ∀ p, (t.heap p).ID = (s.heap p).ID ∧ (t.heap p).closed = (s.heap p).closed)
    (hs : Sound s) : Sound t := by
  constructor
  · intro id p hp
    rw [hc] at hp
    rw [(hh p).1]
    exact hs.1 id p hp
  · intro id p hp
    rw [hc] at hp
    rw [(hh p).2]
    exact hs.2 id p hp

theorem fanOut_ok (m : Message) (ids : List String) (s : World) (hopen : NoClosedClient s) :
    ∃ s1, fanOut m ids s = Except.ok s1 ∧ s1.hub = s.hub ∧
      ∀ p, (s1.heap p).ID = (s.heap p).ID ∧ (s1.heap p).closed = (s.heap p).closed := by
  induction ids generalizing s with
  | nil => exact ⟨s, rfl, rfl, fun _ => ⟨rfl, rfl⟩⟩
  | cons id ids ih =>
    cases hcl : s.hub.clients id with
    | none =>
      rw [fanOut_cons_absent m id ids s hcl]
      exact ih s hopen
    | some c =>
      have hcopen : (s.heap c).closed = false := hopen id c hcl
      by_cases hlen : (s.heap c).Send.length < 256
      · rw [fanOut_cons_sent m id ids s c _ hcl (trySend_room (s.heap c) m hcopen hlen)]
        have hsame : ∀ p, ((Function.update s.heap c ((s.heap c).enqueue m)) p).ID = (s.heap p).ID ∧
            ((Function.update s.heap c ((s.heap c).enqueue m)) p).closed = (s.heap p).closed := by
          intro p
          by_cases hpc : p = c
          · subst hpc; simp [Client.enqueue]
          · simp [Function.update_noteq hpc]
        have hopen1 : NoClosedClient
            { s with heap := Function.update s.heap c ((s.heap c).enqueue m) } := by
          intro k p hp
          show ((Function.update s.heap c ((s.heap c).enqueue m)) p).closed = false
          rw [(hsame p).2]
          exact hopen k p hp
        obtain ⟨s1, h1, h2, h3⟩ := ih _ hopen1
        refine ⟨s1, h1, h2, fun p => ?_⟩
        exact ⟨(h3 p).1.trans (hsame p).1, (h3 p).2.trans (hsame p).2⟩
      · rw [fanOut_cons_full m id ids s c _ hcl (trySend_full (s.heap c) m hcopen hlen)]
        exact ih _ hopen

theorem broadcastToChannel_ok (order : Finset String → List String) (channel : String)
    (m : Message) (s : World) (hopen : NoClosedClient s) :
    ∃ s1, broadcastToChannel order channel m s = Except.ok s1 ∧ s1.hub = s.hub ∧
      ∀ p, (s1.heap p).ID = (s.heap p).ID ∧ (s1.heap p).closed = (s.heap p).closed := by
  unfold broadcastToChannel
  cases s.hub.channels channel with
  | none => exact ⟨s, rfl, rfl, fun _ => ⟨rfl, rfl⟩⟩
  | some subs => exact fanOut_ok m (order subs) s hopen

theorem handleMessage_heap (msg : Message) (s : World) : (handleMessage msg s).heap = s.heap := by
  unfold handleMessage
  split
  · rfl
  · split <;> rfl

theorem handleMessage_hub (msg : Message) (s : World) : (handleMessage msg s).hub = s.hub := by
  unfold handleMessage
  split
  · rfl
  · split <;> rfl

theorem sound_publishToBridge (msg : Message) (s : World) (hs : Sound s) :
    Sound (publishToBridge msg s) :=
  sound_of_same s _ (by simp) (fun p => by simp) hs

theorem sound_op (op : Op) (s : World) (hs : Sound s)
    (hreg : ∀ c, op = Op.register c → notClosed s c = true) : Sound (op.apply s) :=
  ⟨keyedByID_apply op s hs.1, noClosedClient_apply op s hs.1 hs.2 hreg⟩

theorem handleEvent_sound (order : Finset String → List String) (e : Event) (s : World)
    (hs : Sound s) (hreg : ∀ c, e = Event.register c → notClosed s c = true) :
    ∃ s1, handleEvent order e s = Except.ok s1 ∧ Sound s1 := by
  cases e with
  | register c =>
    exact ⟨_, rfl, sound_op (Op.register c) s hs (fun c1 h => by cases h; exact hreg c rfl)⟩
  | unregister c =>
    exact ⟨_, rfl, sound_op (Op.unregister c) s hs (fun _ h => Op.noConfusion h)⟩
  | incoming msg =>
    exact ⟨_, rfl, sound_of_same s _ (by rw [handleMessage_hub])
      (fun p => by rw [handleMessage_heap]; exact ⟨rfl, rfl⟩) hs⟩
  | broadcast bm =>
    have hs1 := sound_publishToBridge bm.msg s hs
    obtain ⟨s1, h1, h2, h3⟩ := broadcastToChannel_ok order bm.channel bm.msg _ hs1.2
    exact ⟨s1, h1, sound_of_same _ s1 (by rw [h2]) h3 hs1⟩
  | localCast bm =>
    obtain ⟨s1, h1, h2, h3⟩ := broadcastToChannel_ok order bm.channel bm.msg s hs.2
    exact ⟨s1, h1, sound_of_same s s1 (by rw [h2]) h3 hs⟩
  | done => exact ⟨s, rfl, hs⟩

theorem SendToClient_unknown (clientID : String) (msg : Message) (s : World)
    (h : s.hub.clients clientID = none) :
    SendToClient clientID msg s = Except.ok (false, s) := by
  simp [SendToClient, h]

theorem SendToClient_sent (clientID : String) (msg : Message) (s : World) (c : Nat)
    (h : s.hub.clients clientID = some c) (hc : (s.heap c).closed = false)
    (hl : (s.heap c).Send.length < 256) :
    SendToClient clientID msg s
      = Except.ok (true, { s with heap := Function.update s.heap c ((s.heap c).enqueue msg) }) := by
  simp [SendToClient, h, trySend_room (s.heap c) msg hc hl]

theorem SendToClient_full (clientID : String) (msg : Message) (s : World) (c : Nat)
    (h : s.hub.clients clientID = some c) (hc : (s.heap c).closed = false)
    (hl : ¬ (s.heap c).Send.length < 256) :
    SendToClient clientID msg s = Except.ok (false, s) := by
  simp [SendToClient, h, trySend_full (s.heap c) msg hc hl]

theorem sound_call (order : Finset String → List String) (call : Call) (s s1 : World)
    (hs : Sound s) (hreg : ∀ c, call = Call.register c → notClosed s c = true)
    (h : call.apply order s = Except.ok s1) : Sound s1 := by
  cases call with
  | register c =>
    obtain ⟨s2, h2, hs2⟩ := handleEvent_sound order (Event.register c) s hs
      (fun c1 e => by cases e; exact hreg c rfl)
    have : s1 = s2 := by
      simp only [Call.apply] at h; rw [h2] at h; exact (Except.ok.inj h).symm
    rw [this]; exact hs2
  | unregister c =>
    obtain ⟨s2, h2, hs2⟩ := handleEvent_sound order (Event.unregister c) s hs
      (fun _ e => Event.noConfusion e)
    have : s1 = s2 := by
      simp only [Call.apply] at h; rw [h2] at h; exact (Except.ok.inj h).symm
    rw [this]; exact hs2
  | subscribe channel clientID =>
    have : s1 = (Op.subscribe channel clientID).apply s := (Except.ok.inj h).symm
    rw [this]; exact sound_op _ s hs (fun _ e => Op.noConfusion e)
  | unsubscribe channel clientID =>
    have : s1 = (Op.unsubscribe channel clientID).apply s := (Except.ok.inj h).symm
    rw [this]; exact sound_op _ s hs (fun _ e => Op.noConfusion e)
  | publish channel msg =>
    obtain ⟨s2, h2, hs2⟩ := handleEvent_sound order (Publish channel msg) s hs
      (fun _ e => Event.noConfusion e)
    have : s1 = s2 := by
      simp only [Call.apply] at h; rw [h2] at h; exact (Except.ok.inj h).symm
    rw [this]; exact hs2
  | broadcastToLocal msg =>
    obtain ⟨s2, h2, hs2⟩ := handleEvent_sound order (BroadcastToLocal msg) s hs
      (fun _ e => Event.noConfusion e)
    have : s1 = s2 := by
      simp only [Call.apply] at h; rw [h2] at h; exact (Except.ok.inj h).symm
    rw [this]; exact hs2
  | sendToClient clientID msg =>
    simp only [Call.apply] at h
    cases hcl : s.hub.clients clientID with
    | none =>
      rw [SendToClient_unknown clientID msg s hcl] at h
      have : s1 = s := (Except.ok.inj h).symm
      rw [this]; exact hs
    | some c =>
      have hcopen : (s.heap c).closed = false := hs.2 clientID c hcl
      by_cases hlen : (s.heap c).Send.length < 256
      · rw [SendToClient_sent clientID msg s c hcl hcopen hlen] at h
        have : s1 = { s with heap := Function.update s.heap c ((s.heap c).enqueue msg) } :=
          (Except.ok.inj h).symm
        rw [this]
        refine sound_of_same s _ rfl (fun p => ?_) hs
        by_cases hpc : p = c
        · subst hpc; simp [Client.enqueue]
        · simp [Function.update_noteq hpc]
      · rw [SendToClient_full clientID msg s c hcl hcopen hlen] at h
        have : s1 = s := (Except.ok.inj h).symm
        rw [this]; exact hs
  | registerHandler channel handler =>
    have : s1 = RegisterHandler channel handler s := (Except.ok.inj h).symm
    rw [this]; exact sound_of_same s _ rfl (fun _ => ⟨rfl, rfl⟩) hs
  | setBridge b =>
    have : s1 = SetBridge b s := (Except.ok.inj h).symm
    rw [this]; exact sound_of_same s _ rfl (fun _ => ⟨rfl, rfl⟩) hs
  | incoming msg =>
    obtain ⟨s2, h2, hs2⟩ := handleEvent_sound order (Event.incoming msg) s hs
      (fun _ e => Event.noConfusion e)
    have : s1 = s2 := by
      simp only [Call.apply] at h; rw [h2] at h; exact (Except.ok.inj h).symm
    rw [this]; exact hs2
  | stop =>
    simp only [Call.apply, Stop] at h
    split at h
    · exact Except.noConfusion h
    · have : s1 = { s with hub := { s.hub with done := true } } := (Except.ok.inj h).symm
      rw [this]; exact sound_of_same s _ rfl (fun _ => ⟨rfl, rfl⟩) hs

theorem registersOpen_cons (order : Finset String → List String) (call : Call)
    (calls : List Call) (s : World) (h : registersOpen order (call :: calls) s = true) :
    (∀ c, call = Call.register c → notClosed s c = true) ∧
      registersOpen order calls (finalState (call.apply order s)) = true := by
  cases call with
  | register c =>
    simp only [registersOpen, Bool.and_eq_true] at h
    exact ⟨fun c1 e => by cases e; exact h.1, h.2⟩
  | unregister c => exact ⟨fun _ e => Call.noConfusion e, h⟩
  | subscribe channel clientID => exact ⟨fun _ e => Call.noConfusion e, h⟩
  | unsubscribe channel clientID => exact ⟨fun _ e => Call.noConfusion e, h⟩
  | publish channel msg => exact ⟨fun _ e => Call.noConfusion e, h⟩
  | broadcastToLocal msg => exact ⟨fun _ e => Call.noConfusion e, h⟩
  | sendToClient clientID msg => exact ⟨fun _ e => Call.noConfusion e, h⟩
  | registerHandler channel handler => exact ⟨fun _ e => Call.noConfusion e, h⟩
  | setBridge b => exact ⟨fun _ e => Call.noConfusion e, h⟩
  | incoming msg => exact ⟨fun _ e => Call.noConfusion e, h⟩
  | stop => exact ⟨fun _ e => Call.noConfusion e, h⟩

theorem sound_perform (order : Finset String → List String) (calls : List Call) (s s1 : World)
    (hs : Sound s) (hopen : registersOpen order calls s = true)
    (h : perform order calls s = Except.ok s1) : Sound s1 := by
  induction calls generalizing s with
  | nil =>
    have : s1 = s := (Except.ok.inj h).symm
    rw [this]; exact hs
  | cons call calls ih =>
    obtain ⟨hreg, hrest⟩ := registersOpen_cons order call calls s hopen
    simp only [perform] at h
    cases h0 : call.apply order s with
    | error s2 => rw [h0] at h; exact Except.noConfusion h
    | ok s2 =>
      rw [h0] at h hrest
      exact ih s2 (sound_call order call s s2 hs hreg h0) hrest h

theorem sound_fresh (ids : Nat → String) : Sound (World.fresh ids) :=
  ⟨keyedByID_fresh ids, noClosedClient_fresh ids⟩

theorem loopStep_stuck (order : Finset String → List String) (e : Event)
    (st : LoopStatus × World) (h : st.1 ≠ LoopStatus.running) : loopStep order e st = st := by
  unfold loopStep
  split
  · rename_i h1; exact absurd h1 h
  · rfl

theorem foldl_loopStep_stuck (order : Finset String → List String) (events : List Event)
    (st : LoopStatus × World) (h : st.1 ≠ LoopStatus.running) :
    events.foldl (fun st e => loopStep order e st) st = st := by
  induction events with
  | nil => rfl
  | cons e es ih => rw [List.foldl_cons, loopStep_stuck order e st h]; exact ih

theorem loopStep_returned (order : Finset String → List String) (e : Event) (s : World)
    (h : (loopStep order e (LoopStatus.running, s)).1 = LoopStatus.returned) :
    e = Event.done ∧ s.hub.done = true ∧
      loopStep order e (LoopStatus.running, s) = (LoopStatus.returned, s) := by
  cases e with
  | done =>
    simp only [loopStep] at h ⊢
    by_cases hd : s.hub.done = true
    · simp [hd]
    · simp [hd] at h
  | register c => simp [loopStep, handleEvent] at h
  | unregister c => simp [loopStep, handleEvent] at h
  | incoming msg => simp [loopStep, handleEvent] at h
  | broadcast bm =>
    simp only [loopStep] at h
    split at h <;> simp at h
  | localCast bm =>
    simp only [loopStep] at h
    split at h <;> simp at h

theorem foldl_loopStep_returned (order : Finset String → List String) (events : List Event)
    (st : LoopStatus × World)
    (h : (events.foldl (fun st e => loopStep order e st) st).1 = LoopStatus.returned) :
    st.1 = LoopStatus.returned ∨
      (Event.done ∈ events ∧
        (events.foldl (fun st e => loopStep order e st) st).2.hub.done = true) := by
  induction events generalizing st with
  | nil => exact Or.inl h
  | cons e es ih =>
    rw [List.foldl_cons] at h ⊢
    rcases ih _ h with h1 | ⟨h1, h2⟩
    · obtain ⟨status, s⟩ := st
      cases status with
      | returned => exact Or.inl rfl
      | panicked =>
        rw [loopStep_stuck order e _ (by simp)] at h1
        exact absurd h1 (by simp)
      | running =>
        obtain ⟨he, hd, heq⟩ := loopStep_returned order e s h1
        right
        refine ⟨by rw [he]; exact List.mem_cons_self _ _, ?_⟩
        rw [heq, foldl_loopStep_stuck order es _ (by simp)]
        exact hd
    · exact Or.inr ⟨List.mem_cons_of_mem _ h1, h2⟩

/-- C18 (counterexample): after `Register`, `Unregister` and a second
`Register` of the same client, and a `Subscribe` of its id to `x`, the handling
of a broadcast event on `x` panics: the fan-out sends on the closed buffer of
that client. -/
theorem closed_client_breaks_fanout :
    completed (perform sortedOrder
      [Call.register 0, Call.unregister 0, Call.register 0, Call.subscribe "x" "a"]
      (World.fresh twoIds)) = true ∧
    completed (handleEvent sortedOrder (Publish "x" hello)
      (finalState (perform sortedOrder
        [Call.register 0, Call.unregister 0, Call.register 0, Call.subscribe "x" "a"]
        (World.fresh twoIds)))) = false := by
  refine ⟨by decide, ?_⟩
  have hch : (publishToBridge hello (finalState (perform sortedOrder
      [Call.register 0, Call.unregister 0, Call.register 0, Call.subscribe "x" "a"]
      (World.fresh twoIds)))).hub.channels "x" = some {"a"} := by decide
  have hsort : sortedOrder {"a"} = ["a"] := by simp [sortedOrder]
  have h : handleEvent sortedOrder (Publish "x" hello)
      (finalState (perform sortedOrder
        [Call.register 0, Call.unregister 0, Call.register 0, Call.subscribe "x" "a"]
        (World.fresh twoIds)))
      = Except.error (publishToBridge hello (finalState (perform sortedOrder
        [Call.register 0, Call.unregister 0, Call.register 0, Call.subscribe "x" "a"]
        (World.fresh twoIds)))) := by
    simp only [Publish, handleEvent, broadcastToChannel]
    rw [hch]
    simp only [hsort]
    exact fanOut_cons_closed hello "a" [] _ 0 (by decide) (by decide)
  rw [h]
  rfl

/-- C18 (amended): in every hub state reached from a fresh hub by calls of
the public operations in which no `Register` is given a client that is
already closed, no registered client is closed, the handling of every
register, unregister, incoming, broadcast or localCast event completes
without a panic and leaves the loop running, and for every sequence of
cases taken by the loop `Run` returns only if the done case is among them
and `done` has been closed. -/
theorem loop_survives_events (order : Finset String → List String) (ids : Nat → String)
    (calls : List Call) (s : World)
    (hopen : registersOpen order calls (World.fresh ids) = true)
    (hreach : perform order calls (World.fresh ids) = Except.ok s) :
    (∀ id p, s.hub.clients id = some p → (s.heap p).closed = false) ∧
    (∀ e, ∃ s1, handleEvent order e s = Except.ok s1) ∧
    (∀ e, e ≠ Event.done →
      (loopStep order e (LoopStatus.running, s)).1 = LoopStatus.running) ∧
    (∀ events, (Run order events s).1 = LoopStatus.returned →
      Event.done ∈ events ∧ (Run order events s).2.hub.done = true) := by
  have hs : Sound s := sound_perform order calls _ s (sound_fresh ids) hopen hreach
  have hok : ∀ e, ∃ s1, handleEvent order e s = Except.ok s1 := by
    intro e
    cases e with
    | register c => exact ⟨_, rfl⟩
    | unregister c => exact ⟨_, rfl⟩
    | incoming msg => exact ⟨_, rfl⟩
    | broadcast bm =>
      obtain ⟨s1, h1, _⟩ := handleEvent_sound order (Event.broadcast bm) s hs
        (fun _ e => Event.noConfusion e)
      exact ⟨s1, h1⟩
    | localCast bm =>
      obtain ⟨s1, h1, _⟩ := handleEvent_sound order (Event.localCast bm) s hs
        (fun _ e => Event.noConfusion e)
      exact ⟨s1, h1⟩
    | done => exact ⟨_, rfl⟩
  refine ⟨hs.2, hok, ?_, ?_⟩
  · intro e he
    obtain ⟨s1, h1⟩ := hok e
    cases e with
    | done => exact absurd rfl he
    | register c => simp [loopStep, h1]
    | unregister c => simp [loopStep, h1]
    | incoming msg => simp [loopStep, h1]
    | broadcast bm => simp [loopStep, h1]
    | localCast bm => simp [loopStep, h1]
  · intro events h
    rcases foldl_loopStep_returned order events _ h with h1 | h1
    · exact absurd h1 (by simp)
    · exact h1

theorem eq_ok_of_completed (r : Except World World) (h : completed r = true) :
    r = Except.ok (finalState r) := by
  cases r with
  | ok s => rfl
  | error s => exact absurd h (by simp [completed])

/-- Witness for C18 (amended): the state after `sampleCalls`; there the loop
returns when it takes the done case. -/
theorem loop_survives_events_witness :
    registersOpen sortedOrder sampleCalls (World.fresh twoIds) = true ∧
    perform sortedOrder sampleCalls (World.fresh twoIds)
      = Except.ok (finalState (perform sortedOrder sampleCalls (World.fresh twoIds))) ∧
    (Run sortedOrder [Event.incoming hello, Event.done]
      (finalState (perform sortedOrder sampleCalls (World.fresh twoIds)))).1
      = LoopStatus.returned ∧
    ((∀ id p, (finalState (perform sortedOrder sampleCalls (World.fresh twoIds))).hub.clients id
          = some p →
        ((finalState (perform sortedOrder sampleCalls (World.fresh twoIds))).heap p).closed
          = false) ∧
      (∀ e, ∃ s1, handleEvent sortedOrder e
        (finalState (perform sortedOrder sampleCalls (World.fresh twoIds))) = Except.ok s1) ∧
      (∀ e, e ≠ Event.done →
        (loopStep sortedOrder e (LoopStatus.running,
          finalState (perform sortedOrder sampleCalls (World.fresh twoIds)))).1
          = LoopStatus.running) ∧
      (∀ events, (Run sortedOrder events
          (finalState (perform sortedOrder sampleCalls (World.fresh twoIds)))).1
          = LoopStatus.returned →
        Event.done ∈ events ∧ (Run sortedOrder events
          (finalState (perform sortedOrder sampleCalls (World.fresh twoIds)))).2.hub.done
          = true)) :=
  ⟨by decide, eq_ok_of_completed _ (by decide), by decide,
    loop_survives_events sortedOrder twoIds sampleCalls _ (by decide)
      (eq_ok_of_completed _ (by decide))⟩

/-! ## Order of delivery to one client -/

theorem keyedByID_of_same (s t : World) (hc : t.hub.clients = s.hub.clients)
    (hh : ∀ p, (t.heap p).ID = (s.heap p).ID) (hs : KeyedByID s) : KeyedByID t := by
  intro id p hp
  rw [hc] at hp
  rw [hh p]
  exact hs id p hp

theorem trySend_sent_eq (c c1 : Client) (m : Message) (h : c.trySend m = some (true, c1)) :
    c1 = c.enqueue m := by
  unfold Client.trySend at h
  split at h
  · exact Option.noConfusion h
  · split at h
    · simpa using h.symm
    · simp at h

theorem heap_Send_apply (op : Op) (s : World) (p : Nat) :
    ((op.apply s).heap p).Send = (s.heap p).Send := by
  cases op with
  | register c => rfl
  | unregister c =>
    rcases removeClient_heap c s p with h | ⟨_, h⟩
    · simp [Op.apply, h]
    · simp only [Op.apply, h, Client.Close]; split <;> rfl
  | subscribe channel clientID =>
    rcases Subscribe_heap channel clientID s p with h | ⟨_, h⟩ <;>
      simp [Op.apply, h, Client.AddChannel]
  | unsubscribe channel clientID =>
    rcases Unsubscribe_heap channel clientID s p with h | ⟨_, h⟩ <;>
      simp [Op.apply, h, Client.RemoveChannel]


theorem sendOne_absent (m : Message) (id : String) (s : World)
    (h : s.hub.clients id = none) : sendOne m id s = Except.ok s := by
  simp [sendOne, h]

theorem sendOne_closed (m : Message) (id : String) (s : World) (c : Nat)
    (h : s.hub.clients id = some c) (ht : (s.heap c).trySend m = none) :
    sendOne m id s = Except.error s := by
  simp [sendOne, h, ht]

theorem sendOne_sent (m : Message) (id : String) (s : World) (c : Nat) (c1 : Client)
    (h : s.hub.clients id = some c) (ht : (s.heap c).trySend m = some (true, c1)) :
    sendOne m id s = Except.ok { s with heap := Function.update s.heap c c1 } := by
  simp [sendOne, h, ht]

theorem sendOne_full (m : Message) (id : String) (s : World) (c : Nat) (c1 : Client)
    (h : s.hub.clients id = some c) (ht : (s.heap c).trySend m = some (false, c1)) :
    sendOne m id s
      = Except.ok (s.emit [Effect.log Level.warn "send buffer full, dropping" id]) := by
  simp [sendOne, h, ht]

theorem sendOne_cases (m : Message) (id : String) (s : World) :
    sendOne m id s = Except.ok s ∨ sendOne m id s = Except.error s ∨
      (∃ c, s.hub.clients id = some c ∧ (s.heap c).trySend m = some (true, (s.heap c).enqueue m) ∧
        sendOne m id s
          = Except.ok { s with heap := Function.update s.heap c ((s.heap c).enqueue m) }) ∨
      sendOne m id s
        = Except.ok (s.emit [Effect.log Level.warn "send buffer full, dropping" id]) := by
  cases hcl : s.hub.clients id with
  | none => exact Or.inl (sendOne_absent m id s hcl)
  | some c =>
    cases ht : (s.heap c).trySend m with
    | none => exact Or.inr (Or.inl (sendOne_closed m id s c hcl ht))
    | some r =>
      obtain ⟨sent, c1⟩ := r
      cases sent with
      | true =>
        have hc1 := trySend_sent_eq _ _ _ ht
        subst hc1
        exact Or.inr (Or.inr (Or.inl ⟨c, rfl, ht, sendOne_sent m id s c _ hcl ht⟩))
      | false => exact Or.inr (Or.inr (Or.inr (sendOne_full m id s c c1 hcl ht)))

theorem sendOne_error (m : Message) (id : String) (s w : World)
    (h : sendOne m id s = Except.error w) : w = s := by
  rcases sendOne_cases m id s with h1 | h1 | ⟨c, _, _, h1⟩ | h1 <;> rw [h1] at h
  · exact Except.noConfusion h
  · exact (Except.error.inj h).symm
  · exact Except.noConfusion h
  · exact Except.noConfusion h

theorem sendOne_ok (m : Message) (id : String) (s w : World) (hid : KeyedByID s)
    (h : sendOne m id s = Except.ok w) :
    w.hub = s.hub ∧ (∀ q, (w.heap q).ID = (s.heap q).ID) ∧
      ∀ q, (w.heap q).Send = (s.heap q).Send ∨
        ((w.heap q).Send = (s.heap q).Send ++ [m] ∧ (s.heap q).ID = id) := by
  rcases sendOne_cases m id s with h1 | h1 | ⟨c, hcl, _, h1⟩ | h1 <;> rw [h1] at h
  · have : w = s := (Except.ok.inj h).symm
    subst this
    exact ⟨rfl, fun _ => rfl, fun _ => Or.inl rfl⟩
  · exact Except.noConfusion h
  · have hcid : (s.heap c).ID = id := hid id c hcl
    have : w = { s with heap := Function.update s.heap c ((s.heap c).enqueue m) } :=
      (Except.ok.inj h).symm
    subst this
    refine ⟨rfl, fun q => ?_, fun q => ?_⟩
    · by_cases hqc : q = c
      · subst hqc; simp
      · simp [Function.update_noteq hqc]
    · by_cases hqc : q = c
      · subst hqc; right; exact ⟨by simp [Client.enqueue], hcid⟩
      · left; simp [Function.update_noteq hqc]
  · have : w = s.emit [Effect.log Level.warn "send buffer full, dropping" id] :=
      (Except.ok.inj h).symm
    subst this
    exact ⟨rfl, fun _ => rfl, fun _ => Or.inl rfl⟩

/-- The fan-out loop is the body `sendOne` run over the ids in order, up to
the first panic. -/
theorem fanOut_cons_eq (m : Message) (id : String) (ids : List String) (s : World) :
    fanOut m (id :: ids) s =
      match sendOne m id s with
      | Except.ok s1 => fanOut m ids s1
      | Except.error s1 => Except.error s1 := by
  cases hcl : s.hub.clients id with
  | none => rw [fanOut_cons_absent m id ids s hcl, sendOne_absent m id s hcl]
  | some c =>
    cases ht : (s.heap c).trySend m with
    | none => rw [fanOut_cons_closed m id ids s c hcl ht, sendOne_closed m id s c hcl ht]
    | some r =>
      obtain ⟨sent, c1⟩ := r
      cases sent with
      | true => rw [fanOut_cons_sent m id ids s c c1 hcl ht, sendOne_sent m id s c c1 hcl ht]
      | false => rw [fanOut_cons_full m id ids s c c1 hcl ht, sendOne_full m id s c c1 hcl ht]

theorem pumpInv_of_same (base : List Message) (p : Nat) (n n1 : Net)
    (hK : KeyedByID n1.world)
    (hL : n1.taken p ++ (n1.world.heap p).Send = n.taken p ++ (n.world.heap p).Send)
    (hI : (n1.world.heap p).ID = (n.world.heap p).ID) (hH : n1.handled = n.handled)
    (hF : n1.fanning = n.fanning ∨ n1.fanning = none)
    (hP : List.IsPrefix (n1.written p) (n1.taken p))
    (hE : n1.exited p = false → n1.written p = n1.taken p) (h : PumpInv base p n) :
    PumpInv base p n1 := by
  obtain ⟨_, hsub, hfan, _, _⟩ := h
  refine ⟨hK, by rw [hL, hH]; exact hsub, ?_, hP, hE⟩
  intro m pending hm
  rcases hF with hF | hF
  · rw [hF] at hm
    obtain ⟨h1, before, h2, h3⟩ := hfan m pending hm
    refine ⟨h1, before, by rw [hH]; exact h2, ?_⟩
    rw [hL, hI]
    exact h3
  · rw [hF] at hm
    exact Option.noConfusion hm

theorem pumpInv_begin (order : Finset String → List String) (base : List Message) (p : Nat)
    (bm : broadcastMsg) (w : World) (n : Net) (hord : IsRangeOrder order)
    (hheap : w.heap = n.world.heap) (hhub : w.hub = n.world.hub) (h : PumpInv base p n) :
    PumpInv base p (n.beginFanOut order bm w) := by
  obtain ⟨hid, hsub, _, hpre, hex⟩ := h
  have hsub1 : List.Sublist (n.taken p ++ (w.heap p).Send) (base ++ n.handled) := by
    rw [hheap]; exact hsub
  refine ⟨keyedByID_of_same n.world w (by rw [hhub]) (fun q => by rw [hheap]) hid, ?_, ?_,
    hpre, hex⟩
  · show List.Sublist (n.taken p ++ (w.heap p).Send) (base ++ (n.handled ++ [bm.msg]))
    rw [← List.append_assoc]
    exact hsub1.trans (List.sublist_append_left _ _)
  · intro m pending hm
    simp only [Net.beginFanOut] at hm
    cases hch : w.hub.channels bm.channel with
    | none => rw [hch] at hm; exact Option.noConfusion hm
    | some subs =>
      rw [hch] at hm
      have hm1 := Option.some.inj hm
      have h1 : bm.msg = m := congrArg Prod.fst hm1
      have h2 : order subs = pending := congrArg Prod.snd hm1
      subst h1 h2
      exact ⟨(hord subs).1, n.handled, rfl, fun _ => hsub1⟩

theorem pumpInv_quiet (order : Finset String → List String) (base : List Message) (p : Nat)
    (e : Event) (n : Net) (hfan : n.fanning = none) (he : e.fanned = [])
    (h : PumpInv base p n) :
    PumpInv base p
      { n with
        world := (loopStep order e (LoopStatus.running, n.world)).2
        status := (loopStep order e (LoopStatus.running, n.world)).1 } := by
  have hid := h.1
  have key : KeyedByID (loopStep order e (LoopStatus.running, n.world)).2 ∧
      ∀ q, ((loopStep order e (LoopStatus.running, n.world)).2.heap q).Send
          = (n.world.heap q).Send ∧
        ((loopStep order e (LoopStatus.running, n.world)).2.heap q).ID
          = (n.world.heap q).ID := by
    cases e with
    | done =>
      have : (loopStep order Event.done (LoopStatus.running, n.world)).2 = n.world := by
        simp only [loopStep]; split <;> rfl
      rw [this]
      exact ⟨hid, fun _ => ⟨rfl, rfl⟩⟩
    | register c =>
      exact ⟨keyedByID_apply (Op.register c) n.world hid, fun q => ⟨rfl, rfl⟩⟩
    | unregister c =>
      exact ⟨keyedByID_apply (Op.unregister c) n.world hid,
        fun q => ⟨heap_Send_apply (Op.unregister c) n.world q,
          heap_ID_apply (Op.unregister c) n.world q⟩⟩
    | incoming msg =>
      refine ⟨keyedByID_of_same n.world _ (by simp [loopStep, handleEvent, handleMessage_hub])
        (fun q => by simp [loopStep, handleEvent, handleMessage_heap]) hid, fun q => ?_⟩
      simp [loopStep, handleEvent, handleMessage_heap]
    | broadcast bm => simp [Event.fanned] at he
    | localCast bm => simp [Event.fanned] at he
  refine pumpInv_of_same base p n _ key.1 ?_ (key.2 p).2 rfl (Or.inr hfan) h.2.2.2.1 h.2.2.2.2 h
  show n.taken p ++ _ = _
  rw [(key.2 p).1]

theorem pumpInv_loopTurn (order : Finset String → List String) (base : List Message) (p : Nat)
    (e : Event) (n : Net) (hord : IsRangeOrder order) (h : PumpInv base p n) :
    PumpInv base p (n.loopTurn order e) := by
  unfold Net.loopTurn
  split
  · rename_i hstat hfan
    cases e with
    | broadcast bm =>
      exact pumpInv_begin order base p bm _ n hord (by simp) (by simp) h
    | localCast bm => exact pumpInv_begin order base p bm _ n hord rfl rfl h
    | done => exact pumpInv_quiet order base p Event.done n hfan rfl h
    | register c => exact pumpInv_quiet order base p (Event.register c) n hfan rfl h
    | unregister c => exact pumpInv_quiet order base p (Event.unregister c) n hfan rfl h
    | incoming msg => exact pumpInv_quiet order base p (Event.incoming msg) n hfan rfl h
  · exact h

theorem pumpInv_sendTurn (base : List Message) (p : Nat) (n : Net) (h : PumpInv base p n) :
    PumpInv base p n.sendTurn := by
  unfold Net.sendTurn
  split
  · exact pumpInv_of_same base p n _ h.1 rfl rfl rfl (Or.inr rfl) h.2.2.2.1 h.2.2.2.2 h
  · rename_i m id rest hstat hfan
    obtain ⟨hid, hsub, hfanInv, hpre, hex⟩ := h
    obtain ⟨hnd, before, hbefore, hcond⟩ := hfanInv m (id :: rest) hfan
    obtain ⟨hnot, hnd1⟩ := List.nodup_cons.mp hnd
    cases hs : sendOne m id n.world with
    | error w =>
      have hw := sendOne_error m id n.world w hs
      subst hw
      refine ⟨hid, hsub, ?_, hpre, hex⟩
      intro m1 pending hm
      exact hfanInv m1 pending hm
    | ok w =>
      obtain ⟨hhub, hids, hsend⟩ := sendOne_ok m id n.world w hid hs
      refine ⟨keyedByID_of_same n.world w (by rw [hhub]) hids hid, ?_, ?_, hpre, hex⟩
      · show List.Sublist (n.taken p ++ (w.heap p).Send) (base ++ n.handled)
        rcases hsend p with h1 | ⟨h1, h2⟩
        · rw [h1]; exact hsub
        · rw [h1, hbefore, ← List.append_assoc, ← List.append_assoc]
          exact List.Sublist.append (hcond (by rw [h2]; exact List.mem_cons_self _ _))
            (List.Sublist.refl _)
      · intro m1 pending hm
        have hm1 := Option.some.inj hm
        have e1 : m = m1 := congrArg Prod.fst hm1
        have e2 : rest = pending := congrArg Prod.snd hm1
        subst e1 e2
        refine ⟨hnd1, before, hbefore, ?_⟩
        intro hmem
        show List.Sublist (n.taken p ++ (w.heap p).Send) (base ++ before)
        rw [hids p] at hmem
        rcases hsend p with h1 | ⟨_, h2⟩
        · rw [h1]; exact hcond (List.mem_cons_of_mem _ hmem)
        · rw [h2] at hmem; exact absurd hmem hnot
  · exact h

theorem pumpInv_op (base : List Message) (p : Nat) (o : Op) (n : Net)
    (h : PumpInv base p n) : PumpInv base p { n with world := o.apply n.world } :=
  pumpInv_of_same base p n _ (keyedByID_apply o n.world h.1)
    (by show n.taken p ++ ((o.apply n.world).heap p).Send = _; rw [heap_Send_apply])
    (heap_ID_apply o n.world p) rfl (Or.inl rfl) h.2.2.2.1 h.2.2.2.2 h

theorem pumpInv_exit (base : List Message) (p c : Nat) (n : Net) (h : PumpInv base p n) :
    PumpInv base p { n with exited := Function.update n.exited c true } := by
  refine pumpInv_of_same base p n _ h.1 rfl rfl rfl (Or.inl rfl) h.2.2.2.1 ?_ h
  intro he
  by_cases hpc : p = c
  · subst hpc; simp at he
  · exact h.2.2.2.2 (by simpa [Function.update_noteq hpc] using he)

theorem pumpInv_write (base : List Message) (p c : Nat) (writeOK : Bool) (n : Net)
    (h : PumpInv base p n) : PumpInv base p (writePump c writeOK n) := by
  unfold writePump
  by_cases hexit : n.exited c = true
  · simp only [hexit, if_true]; exact h
  · simp only [hexit, Bool.false_eq_true, if_false]
    cases hsend : (n.world.heap c).Send with
    | nil =>
      simp only
      split
      · exact pumpInv_exit base p c n h
      · exact h
    | cons m rest =>
      have hpre := h.2.2.2.1
      have hex := h.2.2.2.2
      have hidw : KeyedByID
          { n.world with heap := Function.update n.world.heap c (n.world.heap c).dequeue } := by
        refine keyedByID_of_same n.world _ rfl (fun q => ?_) h.1
        by_cases hqc : q = c
        · subst hqc; simp [Client.dequeue]
        · simp [Function.update_noteq hqc]
      by_cases hpc : p = c
      · subst hpc
        have hexp : n.exited p = false := by simpa using hexit
        have hwt := hex hexp
        refine pumpInv_of_same base p n _ hidw ?_ ?_ rfl (Or.inl rfl) ?_ ?_ h
        · simp [Client.dequeue, hsend]
        · simp [Client.dequeue]
        · cases writeOK with
          | true => simp [hwt]
          | false =>
            simp only [Bool.false_eq_true, if_false, Function.update_same]
            exact hpre.trans (List.prefix_append _ _)
        · cases writeOK with
          | true => intro _; simp [hwt]
          | false => intro he; simp at he
      · refine pumpInv_of_same base p n _ hidw ?_ ?_ rfl (Or.inl rfl) ?_ ?_ h
        · simp [Function.update_noteq hpc]
        · simp [Function.update_noteq hpc]
        · cases writeOK <;> simpa [Function.update_noteq hpc] using hpre
        · cases writeOK with
          | true =>
            intro he
            simpa [Function.update_noteq hpc] using hex he
          | false =>
            intro he
            have he1 : n.exited p = false := by simpa [Function.update_noteq hpc] using he
            simpa [Function.update_noteq hpc] using hex he1

theorem pumpInv_quit (base : List Message) (p c : Nat) (n : Net) (h : PumpInv base p n) :
    PumpInv base p (quitPump c n) := by
  unfold quitPump
  split
  · exact h
  · split
    · exact pumpInv_exit base p c n h
    · exact h

theorem pumpInv_step (order : Finset String → List String) (base : List Message) (p : Nat)
    (st : Step) (n : Net) (hord : IsRangeOrder order) (h : PumpInv base p n) :
    PumpInv base p (n.step order st) := by
  unfold Net.step
  split
  · exact h
  · cases st with
    | loop e => exact pumpInv_loopTurn order base p e n hord h
    | send => exact pumpInv_sendTurn base p n h
    | op o => exact pumpInv_op base p o n h
    | write c writeOK => exact pumpInv_write base p c writeOK n h
    | quit c => exact pumpInv_quit base p c n h

theorem pumpInv_run (order : Finset String → List String) (base : List Message) (p : Nat)
    (steps : List Step) (n : Net) (hord : IsRangeOrder order) (h : PumpInv base p n) :
    PumpInv base p (Net.run order steps n) := by
  induction steps generalizing n with
  | nil => exact h
  | cons st steps ih => exact ih _ (pumpInv_step order base p st n hord h)

theorem handled_step (order : Finset String → List String) (st : Step) (n : Net) :
    ∃ k, (n.step order st).handled = n.handled ++ k ∧
      List.Sublist k (loopMessages [st]) := by
  unfold Net.step
  split
  · exact ⟨[], by simp, List.nil_sublist _⟩
  · cases st with
    | loop e =>
      simp only [Net.loopTurn]
      split
      · cases e with
        | broadcast bm => exact ⟨[bm.msg], rfl, by simp [loopMessages, Event.fanned]⟩
        | localCast bm => exact ⟨[bm.msg], rfl, by simp [loopMessages, Event.fanned]⟩
        | done => exact ⟨[], by simp, List.nil_sublist _⟩
        | register c => exact ⟨[], by simp, List.nil_sublist _⟩
        | unregister c => exact ⟨[], by simp, List.nil_sublist _⟩
        | incoming msg => exact ⟨[], by simp, List.nil_sublist _⟩
      · exact ⟨[], by simp, List.nil_sublist _⟩
    | send =>
      refine ⟨[], ?_, List.nil_sublist _⟩
      simp only [Net.sendTurn, List.append_nil]
      split
      · rfl
      · split <;> rfl
      · rfl
    | op o => exact ⟨[], by simp, List.nil_sublist _⟩
    | write c writeOK =>
      refine ⟨[], ?_, List.nil_sublist _⟩
      simp only [writePump, List.append_nil]
      split
      · rfl
      · split
        · split <;> rfl
        · rfl
    | quit c =>
      refine ⟨[], ?_, List.nil_sublist _⟩
      simp only [quitPump, List.append_nil]
      split
      · rfl
      · split <;> rfl

theorem handled_run (order : Finset String → List String) (steps : List Step) (n : Net) :
    ∃ k, (Net.run order steps n).handled = n.handled ++ k ∧
      List.Sublist k (loopMessages steps) := by
  induction steps generalizing n with
  | nil => exact ⟨[], by simp [Net.run], List.nil_sublist _⟩
  | cons st steps ih =>
    obtain ⟨k1, h1, hs1⟩ := handled_step order st n
    obtain ⟨k2, h2, hs2⟩ := ih (n.step order st)
    refine ⟨k1 ++ k2, ?_, ?_⟩
    · show (Net.run order steps (n.step order st)).handled = _
      rw [h2, h1, List.append_assoc]
    · have : loopMessages (st :: steps) = loopMessages [st] ++ loopMessages steps := by
        simp [loopMessages]
      rw [this]
      exact List.Sublist.append hs1 hs2

theorem run_panicked (order : Finset String → List String) (steps : List Step) (n : Net)
    (h : n.status = LoopStatus.panicked) : Net.run order steps n = n := by
  induction steps with
  | nil => rfl
  | cons st steps ih =>
    have : n.step order st = n := by simp [Net.step, h]
    show Net.run order steps (n.step order st) = n
    rw [this]; exact ih

/-- With no other goroutine in between, the turns of a fan-out give the
state of `fanOut`: the fine-grained steps and the loop of
`broadcastToChannel` are the same code. -/
theorem sendTurns_eq_fanOut (order : Finset String → List String) (m : Message)
    (ids : List String) (n : Net) (hrun : n.status = LoopStatus.running)
    (hfan : n.fanning = some (m, ids)) :
    (Net.run order (List.replicate (ids.length + 1) Step.send) n).world
        = finalState (fanOut m ids n.world) ∧
      (Net.run order (List.replicate (ids.length + 1) Step.send) n).status
        = if completed (fanOut m ids n.world) then LoopStatus.running
          else LoopStatus.panicked := by
  induction ids generalizing n with
  | nil =>
    have h1 : n.step order Step.send = { n with fanning := none } := by
      simp [Net.step, hrun, Net.sendTurn, hfan]
    show (Net.run order [] (n.step order Step.send)).world = _ ∧
      (Net.run order [] (n.step order Step.send)).status = _
    rw [h1]
    exact ⟨rfl, by simp [Net.run, fanOut, completed, hrun]⟩
  | cons id rest ih =>
    show (Net.run order (List.replicate (rest.length + 1) Step.send)
      (n.step order Step.send)).world = _ ∧
      (Net.run order (List.replicate (rest.length + 1) Step.send)
        (n.step order Step.send)).status = _
    rw [fanOut_cons_eq]
    cases hs : sendOne m id n.world with
    | ok w =>
      have h1 : n.step order Step.send = { n with world := w, fanning := some (m, rest) } := by
        simp [Net.step, hrun, Net.sendTurn, hfan, hs]
      rw [h1]
      exact ih _ hrun rfl
    | error w =>
      have h1 : n.step order Step.send
          = { n with world := w, status := LoopStatus.panicked } := by
        simp [Net.step, hrun, Net.sendTurn, hfan, hs]
      rw [h1, run_panicked order _ _ rfl]
      exact ⟨rfl, by simp [completed]⟩

/-- C17: for every client, every range order and every interleaving of loop
events, single sends of a fan-out, registry operations and write-pump
turns, starting from a hub whose entries are stored under their own id: the
messages received by the client's pump followed by those still buffered are
a subsequence of the initial buffer followed by the broadcast and localCast
messages in the order the loop took them up; what is written to the
connection is a prefix of what the pump received, so messages leave the
buffer in enqueue order; and with an initially empty buffer the written
messages are an order-preserving subsequence of the messages of the loop
events. -/
theorem written_is_subsequence (order : Finset String → List String) (steps : List Step)
    (s : World) (p : Nat) (hord : IsRangeOrder order) (hid : KeyedByID s) :
    List.Sublist
        ((Net.run order steps (Net.start s)).taken p
          ++ ((Net.run order steps (Net.start s)).world.heap p).Send)
        ((s.heap p).Send ++ (Net.run order steps (Net.start s)).handled) ∧
    List.IsPrefix ((Net.run order steps (Net.start s)).written p)
        ((Net.run order steps (Net.start s)).taken p) ∧
    List.Sublist (Net.run order steps (Net.start s)).handled (loopMessages steps) ∧
    ((s.heap p).Send = [] →
      List.Sublist ((Net.run order steps (Net.start s)).written p) (loopMessages steps)) := by
  have h0 : PumpInv (s.heap p).Send p (Net.start s) := by
    refine ⟨hid, ?_, ?_, List.prefix_refl _, fun _ => rfl⟩
    · simp [Net.start]
    · intro m pending hm
      exact Option.noConfusion hm
  obtain ⟨_, hsub, _, hpre, _⟩ := pumpInv_run order _ p steps _ hord h0
  obtain ⟨k, hk, hks⟩ := handled_run order steps (Net.start s)
  have hh : List.Sublist (Net.run order steps (Net.start s)).handled (loopMessages steps) := by
    rw [hk]; simpa [Net.start] using hks
  refine ⟨hsub, hpre, hh, fun hempty => ?_⟩
  rw [hempty, List.nil_append] at hsub
  exact (hpre.sublist.trans (List.sublist_append_left _ _)).trans (hsub.trans hh)

/-- Witness for C17: client `a` at address 0 is subscribed to `x` with an
empty buffer; the steps are `sampleSteps`. -/
theorem written_is_subsequence_witness :
    IsRangeOrder sortedOrder ∧
    KeyedByID (run [Op.register 0, Op.register 1, Op.subscribe "x" "a"] (World.fresh twoIds)) ∧
    ((run [Op.register 0, Op.register 1, Op.subscribe "x" "a"] (World.fresh twoIds)).heap 0).Send
      = [] ∧
    loopMessages sampleSteps = [hello, hello, hello] ∧
    List.Sublist
      ((Net.run sortedOrder sampleSteps (Net.start
        (run [Op.register 0, Op.register 1, Op.subscribe "x" "a"] (World.fresh twoIds)))).written 0)
      (loopMessages sampleSteps) :=
  ⟨isRangeOrder_sortedOrder, keyedByID_run _ _ (keyedByID_fresh twoIds), by decide, by decide,
    (written_is_subsequence sortedOrder sampleSteps
      (run [Op.register 0, Op.register 1, Op.subscribe "x" "a"] (World.fresh twoIds)) 0
      isRangeOrder_sortedOrder (keyedByID_run _ _ (keyedByID_fresh twoIds))).2.2.2 (by decide)⟩

/-! ## The client id of incoming messages -/

theorem handlerCalls_handleMessage (msg : Message) (s : World) (handler : MessageHandler)
    (h : s.hub.handlers msg.Channel = some handler) :
    handlerCalls (handleMessage msg s)
      = handlerCalls s ++ [(msg.Channel, msg.ClientID, msg)] := by
  cases hr : handler msg.ClientID msg <;>
    simp [handleMessage, h, hr, handlerCalls, List.filterMap_append]

/-- C21: every message the read pump of client `c` delivers to `incoming`
carries `c.ID` as its client id, whatever client id the frame carried; its
channel, event and data are those of the frame and its timestamp is the time
of reading; and when a handler is registered for its channel, handling the
message calls that handler with `c.ID` as the client id argument. -/
theorem readPump_stamps_client_id (order : Finset String → List String) (c : Nat) (w : World)
    (reads : List (Int × Frame)) (m : Message)
    (h : Event.incoming m ∈ ReadPump c (w.heap c).ID reads) :
    m.ClientID = (w.heap c).ID ∧
    (∃ r, r ∈ reads ∧ m.Channel = r.2.channel.getD "" ∧ m.Event = r.2.event.getD "" ∧
      m.Data = r.2.data.getD [] ∧ m.Timestamp = r.1) ∧
    (∀ s handler, s.hub.handlers m.Channel = some handler →
      handlerCalls (finalState (handleEvent order (Event.incoming m) s))
        = handlerCalls s ++ [(m.Channel, (w.heap c).ID, m)]) := by
  simp only [ReadPump, List.mem_append, List.mem_map, List.mem_singleton] at h
  rcases h with ⟨r, hr, he⟩ | h
  · have hm : m = r.2.ReadJSON.stamp (w.heap c).ID r.1 := (Event.incoming.inj he).symm
    have hid : m.ClientID = (w.heap c).ID := by rw [hm]; rfl
    refine ⟨hid, ⟨r, hr, ?_, ?_, ?_, ?_⟩, ?_⟩
    · rw [hm]; rfl
    · rw [hm]; rfl
    · rw [hm]; rfl
    · rw [hm]; rfl
    · intro s handler hh
      show handlerCalls (handleMessage m s) = _
      rw [handlerCalls_handleMessage m s handler hh, hid]
  · exact Event.noConfusion h

/-- Witness for C21: the pump of client `a` reads `forgedFrame`, which names
`admin` as its client id; the handler of `commands` is called with `a`. -/
theorem readPump_stamps_client_id_witness :
    Event.incoming forged ∈ ReadPump 0 ((World.fresh twoIds).heap 0).ID [(7, forgedFrame)] ∧
    forgedFrame.client_id = some "admin" ∧
    forged.ClientID = "a" ∧
    handlerCalls (finalState (handleEvent sortedOrder (Event.incoming forged)
        (RegisterHandler "commands" quietHandler (World.fresh twoIds))))
      = handlerCalls (RegisterHandler "commands" quietHandler (World.fresh twoIds))
        ++ [("commands", "a", forged)] :=
  ⟨List.mem_cons_self _ _, rfl,
    (readPump_stamps_client_id sortedOrder 0 (World.fresh twoIds) [(7, forgedFrame)] forged
      (List.mem_cons_self _ _)).1,
    (readPump_stamps_client_id sortedOrder 0 (World.fresh twoIds) [(7, forgedFrame)] forged
      (List.mem_cons_self _ _)).2.2
      (RegisterHandler "commands" quietHandler (World.fresh twoIds)) quietHandler
      (by simp [RegisterHandler, forged])⟩

/-! ## JSON round trip -/

mutual
theorem Any.toAny_toJSON : (v : Any) → v.native = true → v.toJSON.toAny = v
  | .null, _ => by simp [Any.toJSON, JSON.toAny]
  | .bool _, _ => by simp [Any.toJSON, JSON.toAny]
  | .number _, _ => by simp [Any.toJSON, JSON.toAny]
  | .int _, h => by simp [Any.native] at h
  | .str _, _ => by simp [Any.toJSON, JSON.toAny]
  | .array items, h => by
    have h1 : Any.nativeItems items = true := by simpa [Any.native] using h
    simp [Any.toJSON, JSON.toAny, Any.toAny_toJSONItems items h1]
  | .object fields, h => by
    have h1 : Any.nativeFields fields = true := by simpa [Any.native] using h
    simp [Any.toJSON, JSON.toAny, Any.toAny_toJSONFields fields h1]
  | .strMap _, h => by simp [Any.native] at h
theorem Any.toAny_toJSONItems :
    (items : List Any) → Any.nativeItems items = true →
      JSON.toAnyItems (Any.toJSONItems items) = items
  | [], _ => by simp [Any.toJSONItems, JSON.toAnyItems]
  | v :: rest, h => by
    have h1 : v.native = true ∧ Any.nativeItems rest = true := by
      simpa [Any.nativeItems] using h
    simp [Any.toJSONItems, JSON.toAnyItems, Any.toAny_toJSON v h1.1,
      Any.toAny_toJSONItems rest h1.2]
theorem Any.toAny_toJSONFields :
    (fields : List (String × Any)) → Any.nativeFields fields = true →
      JSON.toAnyFields (Any.toJSONFields fields) = fields
  | [], _ => by simp [Any.toJSONFields, JSON.toAnyFields]
  | (k, v) :: rest, h => by
    have h1 : v.native = true ∧ Any.nativeFields rest = true := by
      simpa [Any.nativeFields] using h
    simp [Any.toJSONFields, JSON.toAnyFields, Any.toAny_toJSON v h1.1,
      Any.toAny_toJSONFields rest h1.2]
end

theorem unmarshal_marshal_data (m : Message) (h : Any.nativeFields m.Data = true) :
    m.Marshal.Unmarshal.Data = m.Data := by
  cases hd : m.Data with
  | nil => simp [Message.Marshal, MessageJSON.Unmarshal, MessageJSON.toFrame, Frame.ReadJSON, hd]
  | cons kv rest =>
    rw [hd] at h
    simp [Message.Marshal, MessageJSON.Unmarshal, MessageJSON.toFrame, Frame.ReadJSON, hd,
      Any.toAny_toJSONFields (kv :: rest) h]

theorem unmarshal_marshal_clientID (m : Message) :
    m.Marshal.Unmarshal.ClientID = m.ClientID := by
  by_cases h : m.ClientID = ""
  · simp [Message.Marshal, MessageJSON.Unmarshal, MessageJSON.toFrame, Frame.ReadJSON, h]
  · simp [Message.Marshal, MessageJSON.Unmarshal, MessageJSON.toFrame, Frame.ReadJSON, h]

/-- C14 (counterexample): a message whose data holds the `int` 5 comes back
from the JSON round trip with the `float64` 5 in its place, on its own and
inside a relay envelope. -/
theorem roundtrip_changes_int :
    presenceInt.Marshal.Unmarshal.Data
      = [("user", Any.str "alice"), ("count", Any.number 5)] ∧
    presenceInt.Marshal.Unmarshal.Data ≠ presenceInt.Data ∧
    (redisEnvelope.Marshal { InstanceID := "node-1", Message := presenceInt }).Unmarshal.Message.Data
      ≠ presenceInt.Data := by
  decide

/-- C14 (amended): decoding the JSON encoding of a message gives back its
channel, event, client id and timestamp for every message, and its data when
every value in it is of the types that JSON decoding produces (nil, bool,
finite `float64`, string, `[]any`, `map[string]any`); decoding the encoding
of a relay envelope gives back its instance id and the round trip of its
message, so under the same condition the envelope comes back as it was. -/
theorem roundtrip_preserves (env : redisEnvelope) :
    env.Message.Marshal.Unmarshal.Channel = env.Message.Channel ∧
    env.Message.Marshal.Unmarshal.Event = env.Message.Event ∧
    env.Message.Marshal.Unmarshal.ClientID = env.Message.ClientID ∧
    env.Message.Marshal.Unmarshal.Timestamp = env.Message.Timestamp ∧
    env.Marshal.Unmarshal.InstanceID = env.InstanceID ∧
    env.Marshal.Unmarshal.Message = env.Message.Marshal.Unmarshal ∧
    (Any.nativeFields env.Message.Data = true →
      env.Message.Marshal.Unmarshal = env.Message ∧ env.Marshal.Unmarshal = env) := by
  have hc := unmarshal_marshal_clientID env.Message
  refine ⟨rfl, rfl, hc, rfl, rfl, rfl, fun h => ?_⟩
  have hd := unmarshal_marshal_data env.Message h
  have hm : env.Message.Marshal.Unmarshal = env.Message := by
    have h1 : env.Message.Marshal.Unmarshal.Channel = env.Message.Channel := rfl
    have h2 : env.Message.Marshal.Unmarshal.Event = env.Message.Event := rfl
    have h3 : env.Message.Marshal.Unmarshal.Timestamp = env.Message.Timestamp := rfl
    generalize env.Message.Marshal.Unmarshal = m1 at hc hd h1 h2 h3
    generalize env.Message = m2 at hc hd h1 h2 h3
    cases m1; cases m2
    simp_all
  refine ⟨hm, ?_⟩
  have he : env.Marshal.Unmarshal
      = { InstanceID := env.InstanceID, Message := env.Message.Marshal.Unmarshal } := rfl
  rw [he, hm]

/-- Witness for C14 (amended): the envelope of `TestRedisEnvelopeRoundTrip`. -/
theorem roundtrip_preserves_witness :
    Any.nativeFields presence.Data = true ∧
    presence.Marshal.Unmarshal = presence ∧
    (redisEnvelope.Marshal { InstanceID := "node-1", Message := presence }).Unmarshal
      = { InstanceID := "node-1", Message := presence } :=
  ⟨by decide,
    ((roundtrip_preserves { InstanceID := "node-1", Message := presence }).2.2.2.2.2.2
      (by decide)).1,
    ((roundtrip_preserves { InstanceID := "node-1", Message := presence }).2.2.2.2.2.2
      (by decide)).2⟩

end Socket
